import Mathlib

/-!
# timemory: resource-usage getters, timing components and scoped records

A shallow embedding of

* `source/timemory/backends/bits/rusage.hpp` (the `tim::get_*` getters),
* `source/timemory/timing.hpp` (`tim::timing::base` and the operation structs),
* `source/timemory/library.h` (`timemory_scoped_record`),
* `source/timemory/backends/nvtx.hpp` (`tim::nvtx::init_marker` and the colours),

followed by the properties established about them.

Conventions.  `int64_t`/`intmax_t`/`long` values are integers reduced with `wrap64`
(two's complement); `uint64_t` values are naturals reduced modulo `2 ^ 64`.  Preprocessor
symbols are the boolean fields of `Macros`; what the operating system answers is the record
`OS`; constants of headers that are not part of the sources are fields of `Units`.
-/

namespace tim

/-! ## Machine integers -/

/-- Smallest `int64_t`. -/
def INT64_MIN : Int := -(2 ^ 63)

/-- Largest `int64_t`. -/
def INT64_MAX : Int := 2 ^ 63 - 1

/-- Reduction of an integer to `int64_t` (two's complement wrap-around). -/
def wrap64 (x : Int) : Int := (x + 2 ^ 63) % 2 ^ 64 - 2 ^ 63

/-- Saturation to the `int64_t` range, as done by `strtol` and by `num_get` on overflow. -/
def clamp64 (x : Int) : Int :=
  if x < INT64_MIN then INT64_MIN else if INT64_MAX < x then INT64_MAX else x

/-! ## Preprocessor configuration and absent headers -/

/-- Preprocessor symbols tested by the sources (`true` = defined). -/
structure Macros where
  UNIX : Bool
  MACOS : Bool
  LINUX : Bool
  WINDOWS : Bool
  DEBUG : Bool
  deriving DecidableEq, Repr

/-- Constants of `timemory/units.hpp`, a header that is not among the sources: they are
parameters of the getters. -/
structure Units where
  kilobyte : Int
  clocks_per_sec : Int
  get_page_size : Int
  deriving DecidableEq, Repr

/-! ## What the operating system answers -/

/-- The fields of `struct rusage` read by the getters (each a `long`). -/
structure rusage where
  ru_maxrss : Int
  ru_isrss : Int
  ru_idrss : Int
  ru_nswap : Int
  ru_inblock : Int
  ru_oublock : Int
  ru_minflt : Int
  ru_majflt : Int
  ru_msgsnd : Int
  ru_msgrcv : Int
  ru_nsignals : Int
  ru_nvcsw : Int
  ru_nivcsw : Int
  deriving DecidableEq, Repr

/-- Answers of the system calls and `/proc` files used by `rusage.hpp`.

* `getrusage_ret` is the return code of `getrusage(get_rusage_type(), &_usage)` and
  `usage` is what the local `_usage` holds after the call (the source never initialises it,
  so on failure this is whatever the stack held);
* `task_info_ret` is the code of `task_info` (`KERN_SUCCESS` is `0`), with
  `resident_size`/`virtual_size` the fields of `mach_task_basic_info`;
* `proc_pid_rusage_ret` is the code of `proc_pid_rusage`, with the two disk counters;
* `statm`/`io` are the contents of `/proc/<pid>/statm` and `/proc/<pid>/io`, `none` when
  the file cannot be opened. -/
structure OS where
  getrusage_ret : Int
  usage : rusage
  task_info_ret : Int
  resident_size : Nat
  virtual_size : Nat
  proc_pid_rusage_ret : Int
  ri_diskio_bytesread : Nat
  ri_diskio_byteswritten : Nat
  statm : Option (List Char)
  io : Option (List Char)
  deriving DecidableEq, Repr

/-- Mach's `KERN_SUCCESS`. -/
def KERN_SUCCESS : Int := 0

/-! ## Text input: `fscanf` and `std::ifstream` -/

/-- The C `isspace` in the "C" locale. -/
def isspace (c : Char) : Bool :=
  c == ' ' || c == '\t' || c == '\n' || c == '\r' || c.toNat == 11 || c.toNat == 12

/-- Decimal digit test. -/
def isdigit (c : Char) : Bool := 48 ≤ c.toNat && c.toNat ≤ 57

/-- Value of a run of decimal digits. -/
def digitsValue (ds : List Char) : Nat :=
  ds.foldl (fun acc c => 10 * acc + (c.toNat - 48)) 0

/-- Optional sign in front of a number: `(negative, rest)`. -/
def takeSign : List Char → Bool × List Char
  | '-' :: t => (true, t)
  | '+' :: t => (false, t)
  | b => (false, b)

/-- Result of `fscanf(fp, "%*s%ld", &rss)` on the unread input `buf`: the return value of
`fscanf` and the value left in `rss` (initially `rss0`).  `%*s` skips white space and a
non-empty run of non-space characters; `%ld` skips white space and converts an optionally
signed run of digits.  End of input before a directive matches is an input failure (`EOF`,
`-1`); a non-number is a matching failure (`0` assignments). -/
def fscanf_skip_ld (buf : List Char) (rss0 : Int) : Int × Int :=
  let b0 := buf.dropWhile isspace
  if b0.isEmpty then (-1, rss0)
  else
    let b1 := (b0.dropWhile (fun c => !isspace c)).dropWhile isspace
    if b1.isEmpty then (-1, rss0)
    else
      let (neg, b2) := takeSign b1
      let ds := b2.takeWhile isdigit
      if ds.isEmpty then (0, rss0)
      else (1, clamp64 (if neg then -(digitsValue ds : Int) else (digitsValue ds : Int)))

/-- State of a `std::ifstream`: unread characters and the `failbit`/`eofbit` flags. -/
structure ifstream where
  buf : List Char
  failbit : Bool
  eofbit : Bool
  deriving DecidableEq, Repr

/-- Construction/`open` on a file: `none` (cannot be opened) sets `failbit`. -/
def ifstream.open : Option (List Char) → ifstream
  | none => { buf := [], failbit := true, eofbit := false }
  | some s => { buf := s, failbit := false, eofbit := false }

/-- Conversion `if(ifs)`: true when the stream has not failed. -/
def ifstream.ok (s : ifstream) : Bool := !s.failbit

/-- The input sentry of a formatted extraction: fails (setting `failbit`) when the stream is
not `good()`; otherwise skips white space, and reaching the end while skipping sets
`eofbit` and `failbit`. -/
def ifstream.sentry (s : ifstream) : ifstream × Bool :=
  if s.failbit || s.eofbit then ({ s with failbit := true }, false)
  else
    let rest := s.buf.dropWhile isspace
    if rest.isEmpty then ({ buf := [], failbit := true, eofbit := true }, false)
    else ({ s with buf := rest }, true)

/-- Extraction `ifs >> label` into a `std::string` holding `old`: a failed sentry leaves
the string untouched, otherwise the string becomes the next run of non-space characters;
reaching the end of the input sets `eofbit`. -/
def ifstream.extract_string (s : ifstream) (old : List Char) : ifstream × List Char :=
  match s.sentry with
  | (s1, false) => (s1, old)
  | (s1, true) =>
    let rest := s1.buf.dropWhile (fun c => !isspace c)
    ({ buf := rest, failbit := false, eofbit := rest.isEmpty },
      s1.buf.takeWhile (fun c => !isspace c))

/-- Extraction `ifs >> value` into an `int64_t` holding `old`: a failed sentry leaves the
variable untouched; otherwise an optionally signed run of digits is converted.  No digit
stores `0` and sets `failbit`; a value outside the range stores the nearest bound and sets
`failbit`; reaching the end of the input sets `eofbit`. -/
def ifstream.extract_int64 (s : ifstream) (old : Int) : ifstream × Int :=
  match s.sentry with
  | (s1, false) => (s1, old)
  | (s1, true) =>
    let (neg, b1) := takeSign s1.buf
    let ds := b1.takeWhile isdigit
    let rest := b1.dropWhile isdigit
    if ds.isEmpty then ({ buf := rest, failbit := true, eofbit := rest.isEmpty }, 0)
    else
      let v : Int := if neg then -(digitsValue ds : Int) else (digitsValue ds : Int)
      ({ buf := rest, failbit := decide (v < INT64_MIN ∨ INT64_MAX < v),
         eofbit := rest.isEmpty }, clamp64 v)

/-! ## `rusage.hpp` -/

/-- The source's `check_rusage_call(ret, _func)`: with `DEBUG` it prints a warning when
`ret > 0`, otherwise it consumes its parameters.  It returns nothing and changes nothing;
the result here is whether the warning is printed. -/
def check_rusage_call (m : Macros) (ret : Int) : Bool :=
  if m.DEBUG then decide (ret > 0) else false

/-- The source's `tim::get_peak_rss`. -/
def get_peak_rss (m : Macros) (u : Units) (os : OS) : Int :=
  if m.UNIX then
    let _warn := check_rusage_call m os.getrusage_ret
    let _units : Int := if m.MACOS then 1 else wrap64 u.kilobyte
    wrap64 (_units * os.usage.ru_maxrss)
  else if m.WINDOWS then 0
  else 0

/-- The source's `tim::get_page_rss`. -/
def get_page_rss (m : Macros) (u : Units) (os : OS) : Int :=
  if m.UNIX then
    if m.MACOS then
      if os.task_info_ret != KERN_SUCCESS then 0
      else wrap64 ((os.resident_size % 2 ^ 64 : Nat) : Int)
    else
      match os.statm with
      | some contents =>
        let r := fscanf_skip_ld contents 0
        if r.1 == 1 then wrap64 (r.2 * u.get_page_size) else 0
      | none => 0
  else if m.WINDOWS then 0
  else 0

/-- The source's `tim::get_stack_rss`. -/
def get_stack_rss (m : Macros) (u : Units) (os : OS) : Int :=
  if m.UNIX then
    let _warn := check_rusage_call m os.getrusage_ret
    let _units : Int := wrap64 (u.kilobyte * u.clocks_per_sec)
    wrap64 (_units * os.usage.ru_isrss)
  else 0

/-- The source's `tim::get_data_rss`: on Linux the sixth number of `statm`, read with five
extractions into `dummy` and one into `drss_size`. -/
def get_data_rss (m : Macros) (u : Units) (os : OS) : Int :=
  if m.UNIX then
    if m.MACOS then
      let _warn := check_rusage_call m os.getrusage_ret
      let _units : Int := wrap64 (u.kilobyte * u.clocks_per_sec)
      wrap64 (_units * os.usage.ru_idrss)
    else
      let ifs := ifstream.open os.statm
      let drss_size : Int :=
        if ifs.ok then
          let s1 := (ifs.extract_int64 0).1
          let s2 := (s1.extract_int64 0).1
          let s3 := (s2.extract_int64 0).1
          let s4 := (s3.extract_int64 0).1
          let s5 := (s4.extract_int64 0).1
          (s5.extract_int64 0).2
        else 0
      wrap64 (drss_size * u.get_page_size)
  else 0

/-- The source's `tim::get_num_swap`. -/
def get_num_swap (m : Macros) (os : OS) : Int :=
  if m.UNIX then
    let _warn := check_rusage_call m os.getrusage_ret
    wrap64 os.usage.ru_nswap
  else 0

/-- The source's `tim::get_num_io_in`. -/
def get_num_io_in (m : Macros) (os : OS) : Int :=
  if m.UNIX then
    let _warn := check_rusage_call m os.getrusage_ret
    wrap64 os.usage.ru_inblock
  else 0

/-- The source's `tim::get_num_io_out`. -/
def get_num_io_out (m : Macros) (os : OS) : Int :=
  if m.UNIX then
    let _warn := check_rusage_call m os.getrusage_ret
    wrap64 os.usage.ru_oublock
  else 0

/-- The source's `tim::get_num_minor_page_faults`. -/
def get_num_minor_page_faults (m : Macros) (os : OS) : Int :=
  if m.UNIX then
    let _warn := check_rusage_call m os.getrusage_ret
    wrap64 os.usage.ru_minflt
  else 0

/-- The source's `tim::get_num_major_page_faults`. -/
def get_num_major_page_faults (m : Macros) (os : OS) : Int :=
  if m.UNIX then
    let _warn := check_rusage_call m os.getrusage_ret
    wrap64 os.usage.ru_majflt
  else 0

/-- The source's `tim::get_num_messages_sent`. -/
def get_num_messages_sent (m : Macros) (os : OS) : Int :=
  if m.UNIX then
    let _warn := check_rusage_call m os.getrusage_ret
    wrap64 os.usage.ru_msgsnd
  else 0

/-- The source's `tim::get_num_messages_received`. -/
def get_num_messages_received (m : Macros) (os : OS) : Int :=
  if m.UNIX then
    let _warn := check_rusage_call m os.getrusage_ret
    wrap64 os.usage.ru_msgrcv
  else 0

/-- The source's `tim::get_num_signals`. -/
def get_num_signals (m : Macros) (os : OS) : Int :=
  if m.UNIX then
    let _warn := check_rusage_call m os.getrusage_ret
    wrap64 os.usage.ru_nsignals
  else 0

/-- The source's `tim::get_num_voluntary_context_switch`. -/
def get_num_voluntary_context_switch (m : Macros) (os : OS) : Int :=
  if m.UNIX then
    let _warn := check_rusage_call m os.getrusage_ret
    wrap64 os.usage.ru_nvcsw
  else 0

/-- The source's `tim::get_num_priority_context_switch`. -/
def get_num_priority_context_switch (m : Macros) (os : OS) : Int :=
  if m.UNIX then
    let _warn := check_rusage_call m os.getrusage_ret
    wrap64 os.usage.ru_nivcsw
  else 0

/-- The test `label.find(key) != std::string::npos`: `key` occurs in `label`. -/
def found (key : List Char) : List Char → Bool
  | [] => key.isEmpty
  | c :: t => key.isPrefixOf (c :: t) || found key t

/-- The loop of `get_bytes_read`/`get_bytes_written`: `fuel` iterations remain of
`for(i = 0; i < max_lines && !ifs.eof(); ++i)`; each reads `label` then `value` and returns
`value` as soon as `label` contains `key`.  `none` means the loop ended without a `return`. -/
def io_loop (key : List Char) : Nat → ifstream → List Char → Int → Option Int
  | 0, _, _, _ => none
  | fuel + 1, ifs, label, value =>
    if ifs.eofbit then none
    else
      let r1 := ifs.extract_string label
      let r2 := r1.1.extract_int64 value
      if found key r1.2 then some r2.2
      else io_loop key fuel r2.1 r1.2 r2.2

/-- The constant `max_lines` of `get_bytes_read` and `get_bytes_written`. -/
def max_lines : Nat := 7

/-- The source's `tim::get_bytes_read`. -/
def get_bytes_read (m : Macros) (os : OS) : Int :=
  if m.MACOS then
    if os.proc_pid_rusage_ret == 0 then wrap64 ((os.ri_diskio_bytesread % 2 ^ 64 : Nat) : Int)
    else 0
  else if m.LINUX then
    let ifs := ifstream.open os.io
    if ifs.ok then
      match io_loop "read_bytes".toList max_lines ifs [] 0 with
      | some v => v
      | none => 0
    else 0
  else 0

/-- The source's `tim::get_bytes_written`. -/
def get_bytes_written (m : Macros) (os : OS) : Int :=
  if m.MACOS then
    if os.proc_pid_rusage_ret == 0 then
      wrap64 ((os.ri_diskio_byteswritten % 2 ^ 64 : Nat) : Int)
    else 0
  else if m.LINUX then
    let ifs := ifstream.open os.io
    if ifs.ok then
      match io_loop "write_bytes".toList max_lines ifs [] 0 with
      | some v => v
      | none => 0
    else 0
  else 0

/-- The source's `tim::get_virt_mem`. -/
def get_virt_mem (m : Macros) (u : Units) (os : OS) : Int :=
  if m.UNIX then
    if m.MACOS then
      if os.task_info_ret != KERN_SUCCESS then 0
      else wrap64 ((os.virtual_size % 2 ^ 64 : Nat) : Int)
    else
      let ifs := ifstream.open os.statm
      let vm_size : Int := if ifs.ok then (ifs.extract_int64 0).2 else 0
      wrap64 (vm_size * u.get_page_size)
  else if m.WINDOWS then 0
  else 0

/-! ## `timing.hpp` -/

namespace timing

/-- The source's `enum record_type`. -/
inductive record_type where
  | REALTIME | SYSTEM | USER | MONOTONIC | MONOTONIC_RAW | THREAD_CPUTIME | PROCESS_CPUTIME
  deriving DecidableEq, Repr

/-- The component kinds (the template argument `_Tp` of `base<_Tp>`), in the order of
`types_t`. -/
inductive Kind where
  | realtime_clock | system_clock | user_clock | monotonic_clock | monotonic_raw_clock
  | thread_cpu_clock | process_cpu_clock
  deriving DecidableEq, Repr

/-- The clock functions of `timemory/clocks.hpp`: those the kinds call in `record()`, and
`get_clock_user_now`, the user-time function of that header, which no kind calls. -/
inductive Clock where
  | get_clock_realtime_now | get_clock_system_now | get_clock_user_now
  | get_clock_monotonic_now | get_clock_monotonic_raw_now | get_clock_thread_now
  | get_clock_process_now
  deriving DecidableEq, Repr

/-- The static member `category` of each kind. -/
def Kind.category : Kind → record_type
  | .realtime_clock => .REALTIME
  | .system_clock => .SYSTEM
  | .user_clock => .USER
  | .monotonic_clock => .USER
  | .monotonic_raw_clock => .USER
  | .thread_cpu_clock => .USER
  | .process_cpu_clock => .USER

/-- The static member `label()` of each kind. -/
def Kind.label : Kind → String
  | .realtime_clock => "real"
  | .system_clock => "sys"
  | .user_clock => "user"
  | .monotonic_clock => "mono"
  | .monotonic_raw_clock => "raw_mono"
  | .thread_cpu_clock => "thr_cpu"
  | .process_cpu_clock => "proc_cpu"

/-- The static member `descript()` of each kind. -/
def Kind.descript : Kind → String
  | .realtime_clock => "wall time"
  | .system_clock => "system time"
  | .user_clock => "user time"
  | .monotonic_clock => "monotonic time"
  | .monotonic_raw_clock => "monotonic raw time"
  | .thread_cpu_clock => "thread cpu time"
  | .process_cpu_clock => "process cpu time"

/-- The clock function called in the body of each kind's `record()`. -/
def Kind.clock : Kind → Clock
  | .realtime_clock => .get_clock_realtime_now
  | .system_clock => .get_clock_system_now
  | .user_clock => .get_clock_monotonic_now
  | .monotonic_clock => .get_clock_monotonic_now
  | .monotonic_raw_clock => .get_clock_monotonic_raw_now
  | .thread_cpu_clock => .get_clock_thread_now
  | .process_cpu_clock => .get_clock_process_now

/-- The clocks as seen by the program: `now f n` is the `intmax_t` answered by the call
number `n` (from `0`) of the clock function `f`, and `calls f` counts the calls made so
far. -/
structure Clocks where
  now : Clock → Nat → Int
  calls : Clock → Nat

/-- One call of the clock function `f`: its answer and the clocks afterwards. -/
def Clocks.read (c : Clocks) (f : Clock) : Int × Clocks :=
  (c.now f (c.calls f), { c with calls := Function.update c.calls f (c.calls f + 1) })

/-- Number of low-order bits of the magnitude `a` that do not fit the 53-bit significand of
a `double` (`fuel` bounds the search; 64 is enough for every `a < 2 ^ 117`). -/
def excessBits (a : Nat) : Nat → Nat
  | 0 => 0
  | fuel + 1 => if a < 2 ^ 53 then 0 else excessBits (a / 2) fuel + 1

/-- Conversion of an `intmax_t` to `double` (round to nearest, ties to even), the result
given as the integer the `double` equals. -/
def toDouble (x : Int) : Int :=
  let a := x.natAbs
  let k := excessBits a 64
  let q := a / 2 ^ k
  let r := a % 2 ^ k
  let q1 := if 2 ^ k < 2 * r || (2 * r == 2 ^ k && q % 2 == 1) then q + 1 else q
  x.sign * ((q1 * 2 ^ k : Nat) : Int)

/-- Conversion of an integer-valued `double` to `intmax_t`.  Outside the range the
conversion has no defined result in C++; the value taken here is the one of the x86-64
conversion instruction (`INT64_MIN`). -/
def fromDouble (d : Int) : Int :=
  if INT64_MIN ≤ d ∧ d ≤ INT64_MAX then d else INT64_MIN

/-- The static member `record()` of each kind, declared `static double record()`: it calls
the kind's clock function once and returns the reading converted to `double`. -/
def Kind.record (k : Kind) (c : Clocks) : Int × Clocks :=
  let r := c.read k.clock
  (toDouble r.1, r.2)

/-- The source's `base<_Tp, intmax_t>`: its only data member is `value`. -/
structure base where
  value : Int
  deriving DecidableEq, Repr

/-- The constructor `base(value_type _value)`. -/
def base.ctor (_value : Int) : base := { value := _value }

/-- The constructor `base()` with its default argument `value_type(0)`. -/
def base.default : base := base.ctor 0

/-- The source's `operator()()`: `return (value = Type::record());`.  The result is the
returned value, the object afterwards and the clocks afterwards. -/
def base.call (k : Kind) (self : base) (c : Clocks) : Int × base × Clocks :=
  let r := k.record c
  let v := fromDouble r.1
  (v, { self with value := v }, r.2)

/-- The source's `start()`: `return (*this)();`. -/
def base.start (k : Kind) (self : base) (c : Clocks) : Int × base × Clocks :=
  base.call k self c

/-- The source's `stop()`: `return (*this)();`. -/
def base.stop (k : Kind) (self : base) (c : Clocks) : Int × base × Clocks :=
  base.call k self c

/-- Whether an lvalue of `value_type` can be returned as `_Tp&`, which needs `_Tp` to be
`value_type` itself (or a base of it).  Every kind is a struct derived from `base<_Tp>`, so
for none of them can the reference be bound. -/
def Kind.binds_value_lvalue : Kind → Bool
  | .realtime_clock => false
  | .system_clock => false
  | .user_clock => false
  | .monotonic_clock => false
  | .monotonic_raw_clock => false
  | .thread_cpu_clock => false
  | .process_cpu_clock => false

/-- Whether a `value_type` can be returned as `_Tp`, which needs a converting constructor
of the kind.  Every kind declares static members only and does not inherit the constructor
`base(value_type)`, so none of them has one. -/
def Kind.converts_from_value : Kind → Bool
  | .realtime_clock => false
  | .system_clock => false
  | .user_clock => false
  | .monotonic_clock => false
  | .monotonic_raw_clock => false
  | .thread_cpu_clock => false
  | .process_cpu_clock => false

/-- The mutating `_Tp& max(rhs)`: `return (value = std::max(value, rhs.value));`.  The
member is instantiated where it is called, and the call compiles only if the assigned
`value_type` lvalue can be returned as `_Tp&`; the result is then the object afterwards.
`none` stands for a call that does not compile. -/
def base.max (k : Kind) (self rhs : base) : Option base :=
  if k.binds_value_lvalue then some { self with value := Max.max self.value rhs.value }
  else none

/-- The `const` overload `_Tp max(rhs) const`: `return std::max(value, rhs.value);`.  The
call compiles only if a `value_type` converts to `_Tp`; the result is then the component
constructed from that value.  `none` stands for a call that does not compile. -/
def base.max_const (k : Kind) (self rhs : base) : Option base :=
  if k.converts_from_value then some (base.ctor (Max.max self.value rhs.value)) else none

/-- The mutating `_Tp& min(rhs)`: `return (value = std::min(value, rhs.value));`, under the
same condition as the mutating `max`. -/
def base.min (k : Kind) (self rhs : base) : Option base :=
  if k.binds_value_lvalue then some { self with value := Min.min self.value rhs.value }
  else none

/-- The `const` overload `_Tp min(rhs) const`: `return std::min(value, rhs.value);`, under
the same condition as the `const` overload of `max`. -/
def base.min_const (k : Kind) (self rhs : base) : Option base :=
  if k.converts_from_value then some (base.ctor (Min.min self.value rhs.value)) else none

/-- The source's `operator+=(const base&)`: `value += rhs.value`. -/
def base.operator_plus_eq (self rhs : base) : base :=
  { self with value := wrap64 (self.value + rhs.value) }

/-- The source's `operator-=(const base&)`: `value -= rhs.value`. -/
def base.operator_minus_eq (self rhs : base) : base :=
  { self with value := wrap64 (self.value - rhs.value) }

/-- What a friend binary operator leaves behind: the returned component and the two
operands after the call. -/
structure binary_result where
  result : base
  lhs : base
  rhs : base
  deriving DecidableEq, Repr

/-- The source's friend `operator+`: `return base<_Tp>(lhs) += rhs;` (a copy of `lhs` is
updated; both operands are `const` references). -/
def operator_plus (lhs rhs : base) : binary_result :=
  let tmp := base.ctor lhs.value
  { result := tmp.operator_plus_eq rhs, lhs := lhs, rhs := rhs }

/-- The source's friend `operator-`: `return base<_Tp>(lhs) -= rhs;`. -/
def operator_minus (lhs rhs : base) : binary_result :=
  let tmp := base.ctor lhs.value
  { result := tmp.operator_minus_eq rhs, lhs := lhs, rhs := rhs }

/-- The source's `operator+=(const value_type&)`: `value += rhs`. -/
def base.operator_plus_eq_value (self : base) (rhs : Int) : base :=
  { self with value := wrap64 (self.value + rhs) }

/-- The source's `operator-=(const value_type&)`: `value -= rhs`. -/
def base.operator_minus_eq_value (self : base) (rhs : Int) : base :=
  { self with value := wrap64 (self.value - rhs) }

/-- The source's `operator*=(const value_type&)`: `value *= rhs`. -/
def base.operator_times_eq_value (self : base) (rhs : Int) : base :=
  { self with value := wrap64 (self.value * rhs) }

/-- The source's `operator/=(const value_type&)`: `value /= rhs`, the quotient truncated
towards zero.  Integer division by zero, and `INT64_MIN / -1`, have no result (on x86-64
the process receives `SIGFPE`): `none`. -/
def base.operator_div_eq_value (self : base) (rhs : Int) : Option base :=
  if rhs = 0 then none
  else if self.value = INT64_MIN ∧ rhs = -1 then none
  else some { self with value := Int.tdiv self.value rhs }

/-- The source's `timing::record(obj)`: `obj();`. -/
def record (k : Kind) (obj : base) (c : Clocks) : base × Clocks :=
  (base.call k obj c).2

/-- The source's `timing::record(obj, rhs)`: `obj += rhs.value;`. -/
def record_rhs (obj rhs : base) : base := obj.operator_plus_eq_value rhs.value

/-- The source's `timing::reset(obj)`: `obj.value = 0;`. -/
def reset (obj : base) : base := { obj with value := 0 }

/-- The source's `timing::minus(obj, rhs)` for a component `rhs`. -/
def minus (obj rhs : base) : base := { obj with value := wrap64 (obj.value - rhs.value) }

/-- The source's `timing::minus(obj, rhs)` for an `intmax_t`. -/
def minus_value (obj : base) (rhs : Int) : base :=
  { obj with value := wrap64 (obj.value - rhs) }

/-- The source's `timing::plus(obj, rhs)` for a component `rhs`. -/
def plus (obj rhs : base) : base := { obj with value := wrap64 (obj.value + rhs.value) }

/-- The source's `timing::plus(obj, rhs)` for an `intmax_t`. -/
def plus_value (obj : base) (rhs : Int) : base :=
  { obj with value := wrap64 (obj.value + rhs) }

/-- The source's `timing::multiply(obj, rhs)` for a component `rhs`. -/
def multiply (obj rhs : base) : base := { obj with value := wrap64 (obj.value * rhs.value) }

/-- The source's `timing::multiply(obj, rhs)` for an `intmax_t`. -/
def multiply_value (obj : base) (rhs : Int) : base :=
  { obj with value := wrap64 (obj.value * rhs) }

/-- The source's `timing::divide(obj, rhs)` for an `intmax_t`: `obj.value /= rhs`. -/
def divide_value (obj : base) (rhs : Int) : Option base :=
  obj.operator_div_eq_value rhs

/-- The source's `timing::divide(obj, rhs)` for a component: `obj.value /= rhs.value`. -/
def divide (obj rhs : base) : Option base :=
  obj.operator_div_eq_value rhs.value

end timing

end tim

/-! ## `library.h` -/

/-- A call received by the C interface declared in `timemory/compat/library.h`. -/
inductive library_call where
  | timemory_get_begin_record (name : String)
  | timemory_get_begin_record_types (name : String) (components : String)
  | timemory_get_begin_record_enum (name : String) (args : List Int)
  | timemory_end_record (id : Nat)
  deriving DecidableEq, Repr

/-- Whether a call is one of the three begin-record calls. -/
def library_call.isBegin : library_call → Bool
  | .timemory_end_record _ => false
  | _ => true

/-- Whether a call is `timemory_end_record`. -/
def library_call.isEnd : library_call → Bool
  | .timemory_end_record _ => true
  | _ => false

/-- The library behind `timemory/compat/library.h`, which is not among the sources: `calls`
lists the calls received so far (oldest first), and `id_of` is the `uint64_t` a begin-record
call returns, as a function of the calls received up to and including it. -/
structure library where
  calls : List library_call
  id_of : List library_call → Nat

/-- A begin-record call: it is appended to the calls and its id (a `uint64_t`) returned. -/
def library.begin_call (lib : library) (c : library_call) : Nat × library :=
  let cs := lib.calls ++ [c]
  (lib.id_of cs % 2 ^ 64, { lib with calls := cs })

/-- The source's `timemory_end_record(id)` as seen from the caller. -/
def library.timemory_end_record (lib : library) (id : Nat) : library :=
  { lib with calls := lib.calls ++ [library_call.timemory_end_record id] }

/-- The source's `struct timemory_scoped_record`: its only member is `m_nid`. -/
structure timemory_scoped_record where
  m_nid : Nat
  deriving DecidableEq, Repr

/-- The default member initialiser of `m_nid`, `std::numeric_limits<uint64_t>::max()`. -/
def timemory_scoped_record.m_nid_default : Nat := 2 ^ 64 - 1

/-- The constructor `timemory_scoped_record(const char* name)`. -/
def timemory_scoped_record.ctor (lib : library) (name : String) :
    timemory_scoped_record × library :=
  let r := lib.begin_call (library_call.timemory_get_begin_record name)
  ({ m_nid := r.1 }, r.2)

/-- The constructor `timemory_scoped_record(const char* name, const char* components)`. -/
def timemory_scoped_record.ctor_types (lib : library) (name components : String) :
    timemory_scoped_record × library :=
  let r := lib.begin_call (library_call.timemory_get_begin_record_types name components)
  ({ m_nid := r.1 }, r.2)

/-- The constructor template `timemory_scoped_record(const char* name, _Ids... _ids)`, which
exists only for a non-empty pack (`id` followed by `ids`); `COMPONENTS_END` is the constant
`TIMEMORY_COMPONENTS_END` of an absent header, appended after the pack. -/
def timemory_scoped_record.ctor_enum (COMPONENTS_END : Int) (lib : library) (name : String)
    (id : Int) (ids : List Int) : timemory_scoped_record × library :=
  let r := lib.begin_call
    (library_call.timemory_get_begin_record_enum name (id :: ids ++ [COMPONENTS_END]))
  ({ m_nid := r.1 }, r.2)

/-- The destructor `~timemory_scoped_record()`: `timemory_end_record(m_nid);`. -/
def timemory_scoped_record.dtor (self : timemory_scoped_record) (lib : library) : library :=
  lib.timemory_end_record self.m_nid

/-- The lifetime of a scoped record: construction by `ctor_of`, then the calls `body` made
by the enclosed scope, then destruction.  The result is the library afterwards. -/
def timemory_scoped_record.lifetime
    (ctor_of : library → timemory_scoped_record × library)
    (body : List library_call) (lib : library) : library :=
  let r := ctor_of lib
  r.1.dtor { r.2 with calls := r.2.calls ++ body }

/-! ## `backends/nvtx.hpp` (build without `TIMEMORY_USE_NVTX`) -/

namespace tim.nvtx

namespace color

/-- The source's `color::red`. -/
def red : Nat := 0xffff0000

/-- The source's `color::blue`. -/
def blue : Nat := 0xff0000ff

/-- The source's `color::green`. -/
def green : Nat := 0xff00ff00

/-- The source's `color::yellow`. -/
def yellow : Nat := 0xffffff00

/-- The source's `color::purple`. -/
def purple : Nat := 0xffff00ff

/-- The source's `color::cyan`. -/
def cyan : Nat := 0xff00ffff

/-- The source's `color::pink`. -/
def pink : Nat := 0xff00ffff

/-- The source's `color::light_green`. -/
def light_green : Nat := 0xff99ff99

/-- The source's `color::available()`: the initial contents of the static vector it returns
a reference to. -/
def available : List Nat := [red, blue, green, yellow, purple, cyan, pink, light_green]

end color

/-- The fallback `#define NVTX_VERSION 0`. -/
def NVTX_VERSION : Nat := 0

/-- The fallback `#define NVTX_EVENT_ATTRIB_STRUCT_SIZE 0`. -/
def NVTX_EVENT_ATTRIB_STRUCT_SIZE : Nat := 0

/-- The fallback `#define NVTX_COLOR_ARGB 0`. -/
def NVTX_COLOR_ARGB : Nat := 0

/-- The fallback `#define NVTX_MESSAGE_TYPE_ASCII 0`. -/
def NVTX_MESSAGE_TYPE_ASCII : Nat := 0

/-- The source's `struct message_t`: a `std::string`, given as its characters. -/
structure message_t where
  ascii : List Char
  deriving DecidableEq, Repr

/-- The source's `struct event_attributes_t`. -/
structure event_attributes_t where
  version : Nat
  size : Nat
  colorType : Nat
  color : Nat
  messageType : Nat
  message : message_t
  deriving DecidableEq, Repr

/-- The default member initialisers of `event_attributes_t` (`attrib = {}`). -/
def event_attributes_t.default : event_attributes_t :=
  { version := NVTX_VERSION, size := NVTX_EVENT_ATTRIB_STRUCT_SIZE,
    colorType := NVTX_COLOR_ARGB, color := 0xff00ff,
    messageType := NVTX_MESSAGE_TYPE_ASCII, message := { ascii := [] } }

/-- The C string seen through `_msg.c_str()` when it is assigned to a `std::string`: the
characters in front of the first NUL. -/
def c_str (s : List Char) : List Char := s.takeWhile (fun c => c != Char.ofNat 0)

/-- The source's `init_marker(_msg, _color)`.  `avail` is the current contents of
`color::available()` and `_counter` the thread-local `uint32_t` counter; the result is the
marker and the counter afterwards.  `none` stands for the call not returning: with
`_color == 0`, the remainder by `size() == 0` has no result, and `.at()` out of range
throws.  The `settings::debug()` branch only writes to `std::cout`. -/
def init_marker (avail : List Nat) (_counter : Nat) (_msg : List Char) (_color : Nat) :
    Option (event_attributes_t × Nat) :=
  let attrib : event_attributes_t :=
    { event_attributes_t.default with
      version := NVTX_VERSION, size := NVTX_EVENT_ATTRIB_STRUCT_SIZE,
      messageType := NVTX_MESSAGE_TYPE_ASCII, colorType := NVTX_COLOR_ARGB,
      message := { ascii := c_str _msg } }
  if _color == 0 then
    if avail.length == 0 then none
    else
      match avail[_counter % avail.length]? with
      | some c => some ({ attrib with color := c }, (_counter + 1) % 2 ^ 32)
      | none => none
  else some ({ attrib with color := _color }, _counter)

/-- Successive calls of `init_marker` on one thread, each given as `(_msg, _color)`: the
markers returned and the counter afterwards. -/
def init_markers (avail : List Nat) :
    Nat → List (List Char × Nat) → Option (List event_attributes_t × Nat)
  | _counter, [] => some ([], _counter)
  | _counter, call :: calls =>
    match init_marker avail _counter call.1 call.2 with
    | none => none
    | some r =>
      match init_markers avail r.2 calls with
      | none => none
      | some rs => some (r.1 :: rs.1, rs.2)

end tim.nvtx

/-! ## Concrete configurations and inputs -/

namespace tim

/-- A Windows build: none of `_UNIX`, `_MACOS`, `_LINUX` is defined. -/
def windowsBuild : Macros :=
  { UNIX := false, MACOS := false, LINUX := false, WINDOWS := true, DEBUG := false }

/-- A Linux build (`_UNIX` and `_LINUX` defined). -/
def linuxBuild : Macros :=
  { UNIX := true, MACOS := false, LINUX := true, WINDOWS := false, DEBUG := false }

/-- Units with a kilobyte of 1024 bytes and pages of 4096 bytes. -/
def sampleUnits : Units := { kilobyte := 1024, clocks_per_sec := 1000000, get_page_size := 4096 }

/-- A buffer whose fields hold the values 5, 6, 7, ... in declaration order. -/
def sampleUsage : rusage :=
  { ru_maxrss := 5, ru_isrss := 6, ru_idrss := 7, ru_nswap := 8, ru_inblock := 9,
    ru_oublock := 10, ru_minflt := 11, ru_majflt := 12, ru_msgsnd := 13, ru_msgrcv := 14,
    ru_nsignals := 15, ru_nvcsw := 16, ru_nivcsw := 17 }

/-- A system on which `getrusage` fails (returns `-1`, as for an invalid `who` argument)
while the buffer holds `sampleUsage`, and on which the `/proc` files cannot be opened. -/
def failingGetrusage : OS :=
  { getrusage_ret := -1, usage := sampleUsage, task_info_ret := 0, resident_size := 0,
    virtual_size := 0, proc_pid_rusage_ret := 0, ri_diskio_bytesread := 0,
    ri_diskio_byteswritten := 0, statm := none, io := none }

end tim

namespace tim.timing

/-- The effect of `n` calls of `stop()` in a row on a component and the clocks. -/
def base.stop_n (k : Kind) : Nat → base → Clocks → base × Clocks
  | 0, self, c => (self, c)
  | n + 1, self, c =>
    let r := base.stop k self c
    base.stop_n k n r.2.1 r.2.2

/-- Clocks on which no call has been made yet and whose successive readings are
10, 20, 30, ... for every clock function. -/
def tickingClocks : Clocks := { now := fun _ n => 10 * (n + 1), calls := fun _ => 0 }

end tim.timing

/-! ## The reading of `/proc/<pid>/statm` and `/proc/<pid>/io`, as the documentation puts it -/

namespace tim

/-- White-space separated fields of a text, read character by character: `cur` is the field
being read.  This follows the words "whitespace-separated field", not the source. -/
def fieldsAux : List Char → List Char → List (List Char)
  | cur, [] => if cur.isEmpty then [] else [cur]
  | cur, c :: t =>
    if isspace c then (if cur.isEmpty then fieldsAux [] t else cur :: fieldsAux [] t)
    else fieldsAux (cur ++ [c]) t

/-- The white-space separated fields of a text. -/
def fields (buf : List Char) : List (List Char) := fieldsAux [] buf

/-- A field "parses as an integer" in the sense of the conversion `%ld`: it begins with an
optionally signed run of decimal digits, whose value (saturated to `long`) is the result. -/
def parse_ld (f : List Char) : Option Int :=
  let s := takeSign f
  let ds := s.2.takeWhile isdigit
  if ds.isEmpty then none
  else some (clamp64 (if s.1 then -(digitsValue ds : Int) else (digitsValue ds : Int)))

/-- One line of `/proc/<pid>/io`: a label and the decimal digits of its value. -/
structure io_entry where
  label : List Char
  digits : List Char
  deriving DecidableEq, Repr

/-- A line is well formed when the label is a non-empty run of non-space characters and the
value a non-empty run of digits denoting a number below `2 ^ 63`. -/
def io_entry.wf (e : io_entry) : Bool :=
  !e.label.isEmpty && e.label.all (fun c => !isspace c) &&
  !e.digits.isEmpty && e.digits.all isdigit && decide (digitsValue e.digits < 2 ^ 63)

/-- The value of a line. -/
def io_entry.value (e : io_entry) : Int := (digitsValue e.digits : Int)

/-- The text of a line: label, a blank, the digits, a newline. -/
def io_entry.render (e : io_entry) : List Char := e.label ++ ' ' :: (e.digits ++ ['\n'])

/-- The text of a file made of the given lines. -/
def render_io : List io_entry → List Char
  | [] => []
  | e :: es => e.render ++ render_io es

/-- The value paired with the first label containing `key` among the first `max_lines`
label/value pairs, or `0` when there is none. -/
def paired_value (key : List Char) (es : List io_entry) : Int :=
  match (es.take max_lines).find? (fun e => decide (key <:+: e.label)) with
  | some e => e.value
  | none => 0

/-- The file `/proc/<pid>/io` in its standard layout, with the given digits as values. -/
def standard_io (d1 d2 d3 d4 d5 d6 d7 : List Char) : List io_entry :=
  [{ label := "rchar:".toList, digits := d1 }, { label := "wchar:".toList, digits := d2 },
   { label := "syscr:".toList, digits := d3 }, { label := "syscw:".toList, digits := d4 },
   { label := "read_bytes:".toList, digits := d5 },
   { label := "write_bytes:".toList, digits := d6 },
   { label := "cancelled_write_bytes:".toList, digits := d7 }]

end tim

namespace tim

/-- A Mac build (`_UNIX` and `_MACOS` defined). -/
def macBuild : Macros :=
  { UNIX := true, MACOS := true, LINUX := false, WINDOWS := false, DEBUG := false }

/-- A Linux system on which `getrusage` succeeds with `sampleUsage`, whose `statm` reads
`100 200 30 4 0 600 0` and whose `io` has the standard seven lines. -/
def sampleProc : OS :=
  { getrusage_ret := 0, usage := sampleUsage, task_info_ret := 0, resident_size := 0,
    virtual_size := 0, proc_pid_rusage_ret := 0, ri_diskio_bytesread := 0,
    ri_diskio_byteswritten := 0,
    statm := some "100 200 30 4 0 600 0\n".toList,
    io := some (render_io (standard_io "1".toList "2".toList "3".toList "4".toList
      "55".toList "66".toList "77".toList)) }

end tim

namespace tim.timing

/-- Clocks on which the user-time function answers 5, 6, ... and every other clock function
1000, 1001, ..., no call having been made yet. -/
def separateClocks : Clocks :=
  { now := fun f n =>
      match f with
      | Clock.get_clock_user_now => 5 + n
      | _ => 1000 + n,
    calls := fun _ => 0 }

end tim.timing

namespace tim

/-- Eight lines of which only the eighth has a label containing `read_bytes`. -/
def lateReadBytes : List io_entry :=
  standard_io "1".toList "2".toList "3".toList "4".toList "5".toList "6".toList "7".toList
    |>.map (fun e => { e with label := "x:".toList })
    |>.append [{ label := "read_bytes:".toList, digits := "88".toList }]

/-- A Linux system whose `io` file is `lateReadBytes`. -/
def lateProc : OS := { sampleProc with io := some (render_io lateReadBytes) }

end tim

/-! ## Properties of the resource-usage getters -/

namespace tim

/-- C1: when none of `_UNIX`, `_MACOS`, `_LINUX` is defined (a Windows build included), each
of the seventeen getters of `rusage.hpp` returns the sentinel `0`, whatever the operating
system would answer; every getter is a total function, so none of them fails. -/
theorem getters_zero_when_unsupported (m : Macros) (u : Units) (os : OS)
    (hU : m.UNIX = false) (hM : m.MACOS = false) (hL : m.LINUX = false) :
    get_peak_rss m u os = 0 ∧ get_page_rss m u os = 0 ∧ get_stack_rss m u os = 0 ∧
    get_data_rss m u os = 0 ∧ get_num_swap m os = 0 ∧ get_num_io_in m os = 0 ∧
    get_num_io_out m os = 0 ∧ get_num_minor_page_faults m os = 0 ∧
    get_num_major_page_faults m os = 0 ∧ get_num_messages_sent m os = 0 ∧
    get_num_messages_received m os = 0 ∧ get_num_signals m os = 0 ∧
    get_num_voluntary_context_switch m os = 0 ∧ get_num_priority_context_switch m os = 0 ∧
    get_bytes_read m os = 0 ∧ get_bytes_written m os = 0 ∧ get_virt_mem m u os = 0 := by
  simp [get_peak_rss, get_page_rss, get_stack_rss, get_data_rss, get_num_swap, get_num_io_in,
    get_num_io_out, get_num_minor_page_faults, get_num_major_page_faults,
    get_num_messages_sent, get_num_messages_received, get_num_signals,
    get_num_voluntary_context_switch, get_num_priority_context_switch, get_bytes_read,
    get_bytes_written, get_virt_mem, hU, hM, hL]

/-- Witness of C1 on a Windows build, with a system whose buffer is not zero. -/
theorem getters_zero_when_unsupported_witness :
    (windowsBuild.UNIX = false ∧ windowsBuild.MACOS = false ∧ windowsBuild.LINUX = false) ∧
    (get_peak_rss windowsBuild sampleUnits failingGetrusage = 0 ∧
     get_num_swap windowsBuild failingGetrusage = 0 ∧
     get_virt_mem windowsBuild sampleUnits failingGetrusage = 0) :=
  have h := getters_zero_when_unsupported windowsBuild sampleUnits failingGetrusage rfl rfl rfl
  ⟨⟨rfl, rfl, rfl⟩, h.1, h.2.2.2.2.1, h.2.2.2.2.2.2.2.2.2.2.2.2.2.2.2.2⟩

/-- C2: on a Linux build where `getrusage` fails (return code `-1`), the getters do not
return `0`: they return what the buffer holds (`get_peak_rss` scaled by the kilobyte), so
`get_peak_rss`, `get_num_swap` and `get_num_minor_page_faults` give 5120, 8 and 11. -/
theorem getters_ignore_getrusage_failure :
    failingGetrusage.getrusage_ret ≠ 0 ∧
    get_peak_rss linuxBuild sampleUnits failingGetrusage = 5120 ∧
    get_num_swap linuxBuild failingGetrusage = 8 ∧
    get_num_minor_page_faults linuxBuild failingGetrusage = 11 := by
  decide

end tim

/-! ## Arithmetic of `int64_t` -/

namespace tim

/-- Reducing the left summand first does not change the reduced sum. -/
theorem wrap64_add_left (a b : Int) : wrap64 (wrap64 a + b) = wrap64 (a + b) := by
  unfold wrap64; omega

/-- Reducing the right summand first does not change the reduced sum. -/
theorem wrap64_add_right (a b : Int) : wrap64 (a + wrap64 b) = wrap64 (a + b) := by
  unfold wrap64; omega

/-- A representable integer is its own reduction. -/
theorem wrap64_of_range (x : Int) (h1 : INT64_MIN ≤ x) (h2 : x ≤ INT64_MAX) :
    wrap64 x = x := by
  unfold wrap64; unfold INT64_MIN at h1; unfold INT64_MAX at h2; omega

end tim

/-! ## Properties of the combine operations of `timing::base` -/

namespace tim.timing

/-- Folding `operator+=` over deltas adds their sum to the accumulator, in `int64_t`. -/
theorem foldl_operator_plus_eq_value (ds : List Int) (acc : base) (x : Int)
    (h : acc.value = wrap64 x) :
    (ds.foldl (fun o d => o.operator_plus_eq (base.ctor d)) acc).value
      = wrap64 (x + ds.sum) := by
  induction ds generalizing acc x with
  | nil => simpa using h
  | cons d ds ih =>
    simp only [List.foldl_cons, List.sum_cons]
    rw [ih _ (x + d), add_assoc]
    simp [base.operator_plus_eq, base.ctor, h, wrap64_add_left]

/-- The three ways of adding a component, `operator+=`, `timing::record(obj, rhs)` and
`timing::plus(obj, rhs)`, are the same update. -/
theorem record_rhs_plus_eq_operator_plus_eq (o rhs : base) :
    record_rhs o rhs = o.operator_plus_eq rhs ∧ plus o rhs = o.operator_plus_eq rhs :=
  ⟨rfl, rfl⟩

/-- C3: starting from a reset component and combining the deltas `ds` in turn with
`operator+=`, with `timing::record(obj, rhs)` or with `timing::plus` leaves in `value` the
sum of the deltas computed in `intmax_t`, which is the exact sum whenever that sum is
representable; and `operator+` on components holding 10 and 20 returns a component holding
30 and leaves both operands as they were. -/
theorem sum_combine_policy (obj : base) (ds : List Int) :
    (ds.foldl (fun o d => o.operator_plus_eq (base.ctor d)) (reset obj)).value
      = wrap64 ds.sum ∧
    (ds.foldl (fun o d => record_rhs o (base.ctor d)) (reset obj)).value = wrap64 ds.sum ∧
    (ds.foldl (fun o d => plus o (base.ctor d)) (reset obj)).value = wrap64 ds.sum ∧
    (INT64_MIN ≤ ds.sum → ds.sum ≤ INT64_MAX →
      (ds.foldl (fun o d => o.operator_plus_eq (base.ctor d)) (reset obj)).value = ds.sum ∧
      (ds.foldl (fun o d => record_rhs o (base.ctor d)) (reset obj)).value = ds.sum ∧
      (ds.foldl (fun o d => plus o (base.ctor d)) (reset obj)).value = ds.sum) ∧
    operator_plus (base.ctor 10) (base.ctor 20)
      = { result := base.ctor 30, lhs := base.ctor 10, rhs := base.ctor 20 } := by
  have h0 : (reset obj).value = wrap64 0 := by simp [reset, wrap64]
  have key := foldl_operator_plus_eq_value ds (reset obj) 0 h0
  rw [zero_add] at key
  have e1 : (fun (o : base) (d : Int) => record_rhs o (base.ctor d))
      = (fun o d => o.operator_plus_eq (base.ctor d)) := rfl
  have e2 : (fun (o : base) (d : Int) => plus o (base.ctor d))
      = (fun o d => o.operator_plus_eq (base.ctor d)) := rfl
  rw [e1, e2]
  refine ⟨key, key, key, ?_, by decide⟩
  intro h1 h2
  rw [key, wrap64_of_range _ h1 h2]
  exact ⟨rfl, rfl, rfl⟩

/-- Witness of C3 on the deltas 10, 20 and -5, whose sum 25 is representable. -/
theorem sum_combine_policy_witness :
    (INT64_MIN ≤ ([10, 20, -5] : List Int).sum ∧ ([10, 20, -5] : List Int).sum ≤ INT64_MAX) ∧
    (([10, 20, -5] : List Int).foldl (fun o d => o.operator_plus_eq (base.ctor d))
      (reset (base.ctor 99))).value = 25 :=
  ⟨by decide,
   ((sum_combine_policy (base.ctor 99) [10, 20, -5]).2.2.2.1 (by decide) (by decide)).1⟩

/-- C4: no MAX combination through the mutating `base::max` exists.  For each of the seven
timing kinds the call does not compile, because the member returns the assigned `intmax_t`
as `_Tp&`; so from a reset component the single delta 3 does not leave `value = 3`, nor any
value at all. -/
theorem max_combine_policy_ill_formed :
    (∀ (k : Kind) (self rhs : base), base.max k self rhs = none) ∧
    base.max Kind.realtime_clock (reset (base.ctor 7)) (base.ctor 3) = none ∧
    base.max Kind.realtime_clock (reset (base.ctor 7)) (base.ctor 3) ≠ some (base.ctor 3) := by
  refine ⟨fun k self rhs => ?_, rfl, by decide⟩
  cases k <;> rfl

end tim.timing

namespace tim.timing

/-- C5: of the three combine operations, `operator+` is commutative and associative on the
resulting value, three components giving the same value in any order; `max` and `min`, in
their mutating and their `const` overload, have no resulting value on any of the seven
timing kinds, since no call of them compiles. -/
theorem operator_plus_reduction_max_min_ill_formed (a b c : base) :
    ((operator_plus a b).result = (operator_plus b a).result ∧
     (operator_plus (operator_plus a b).result c).result
       = (operator_plus a (operator_plus b c).result).result ∧
     (operator_plus (operator_plus a b).result c).result
       = (operator_plus (operator_plus c b).result a).result ∧
     (operator_plus (operator_plus a b).result c).result
       = (operator_plus (operator_plus a c).result b).result) ∧
    (∀ k : Kind, base.max k a b = none ∧ base.max_const k a b = none ∧
      base.min k a b = none ∧ base.min_const k a b = none) ∧
    (base.max_const Kind.realtime_clock (base.ctor 1) (base.ctor 2) = none ∧
     base.min_const Kind.realtime_clock (base.ctor 1) (base.ctor 2) = none) := by
  refine ⟨⟨?_, ?_, ?_, ?_⟩, fun k => ?_, rfl, rfl⟩
  · simp only [operator_plus, base.operator_plus_eq, base.ctor, add_comm]
  · simp only [operator_plus, base.operator_plus_eq, base.ctor, wrap64_add_left,
      wrap64_add_right, add_assoc]
  · simp only [operator_plus, base.operator_plus_eq, base.ctor, wrap64_add_left]
    rw [add_comm c.value, add_comm (b.value + c.value), add_assoc]
  · simp only [operator_plus, base.operator_plus_eq, base.ctor, wrap64_add_left]
    rw [add_right_comm]
  · cases k <;> exact ⟨rfl, rfl, rfl, rfl⟩

end tim.timing

/-! ## Properties of `timemory_scoped_record` -/

/-- C6: for each of the three constructors (name; name and component string; name and a
non-empty pack of component enums followed by `TIMEMORY_COMPONENTS_END`), construction makes
exactly one begin-record call and stores the id that call returned, and destruction makes
exactly one `timemory_end_record` call, whose argument is that id: over the lifetime of the
record the library receives the begin call, then the calls `body` of the enclosed scope,
then `timemory_end_record` of the stored id; with an empty scope the calls added are one
begin-record call and one end-record call. -/
theorem scoped_record_begin_end (lib : library) (name components : String)
    (COMPONENTS_END id : Int) (ids : List Int) (body : List library_call) :
    ((timemory_scoped_record.ctor lib name).2.calls
        = lib.calls ++ [library_call.timemory_get_begin_record name] ∧
     (timemory_scoped_record.ctor lib name).1.m_nid
        = lib.id_of (lib.calls ++ [library_call.timemory_get_begin_record name]) % 2 ^ 64 ∧
     (timemory_scoped_record.lifetime (fun l => timemory_scoped_record.ctor l name)
        body lib).calls
        = lib.calls ++ [library_call.timemory_get_begin_record name] ++ body
          ++ [library_call.timemory_end_record
                (timemory_scoped_record.ctor lib name).1.m_nid]) ∧
    ((timemory_scoped_record.ctor_types lib name components).2.calls
        = lib.calls ++ [library_call.timemory_get_begin_record_types name components] ∧
     (timemory_scoped_record.ctor_types lib name components).1.m_nid
        = lib.id_of
            (lib.calls ++ [library_call.timemory_get_begin_record_types name components])
          % 2 ^ 64 ∧
     (timemory_scoped_record.lifetime
        (fun l => timemory_scoped_record.ctor_types l name components) body lib).calls
        = lib.calls ++ [library_call.timemory_get_begin_record_types name components]
          ++ body
          ++ [library_call.timemory_end_record
                (timemory_scoped_record.ctor_types lib name components).1.m_nid]) ∧
    ((timemory_scoped_record.ctor_enum COMPONENTS_END lib name id ids).2.calls
        = lib.calls
          ++ [library_call.timemory_get_begin_record_enum name
                (id :: ids ++ [COMPONENTS_END])] ∧
     (timemory_scoped_record.ctor_enum COMPONENTS_END lib name id ids).1.m_nid
        = lib.id_of
            (lib.calls
              ++ [library_call.timemory_get_begin_record_enum name
                    (id :: ids ++ [COMPONENTS_END])]) % 2 ^ 64 ∧
     (timemory_scoped_record.lifetime
        (fun l => timemory_scoped_record.ctor_enum COMPONENTS_END l name id ids)
        body lib).calls
        = lib.calls
          ++ [library_call.timemory_get_begin_record_enum name
                (id :: ids ++ [COMPONENTS_END])]
          ++ body
          ++ [library_call.timemory_end_record
                (timemory_scoped_record.ctor_enum COMPONENTS_END lib name id ids).1.m_nid]) ∧
    (((timemory_scoped_record.lifetime (fun l => timemory_scoped_record.ctor l name)
        [] lib).calls.drop lib.calls.length).countP library_call.isBegin = 1 ∧
     ((timemory_scoped_record.lifetime (fun l => timemory_scoped_record.ctor l name)
        [] lib).calls.drop lib.calls.length).countP library_call.isEnd = 1 ∧
     ((timemory_scoped_record.lifetime
        (fun l => timemory_scoped_record.ctor_types l name components)
        [] lib).calls.drop lib.calls.length).countP library_call.isBegin = 1 ∧
     ((timemory_scoped_record.lifetime
        (fun l => timemory_scoped_record.ctor_types l name components)
        [] lib).calls.drop lib.calls.length).countP library_call.isEnd = 1 ∧
     ((timemory_scoped_record.lifetime
        (fun l => timemory_scoped_record.ctor_enum COMPONENTS_END l name id ids)
        [] lib).calls.drop lib.calls.length).countP library_call.isBegin = 1 ∧
     ((timemory_scoped_record.lifetime
        (fun l => timemory_scoped_record.ctor_enum COMPONENTS_END l name id ids)
        [] lib).calls.drop lib.calls.length).countP library_call.isEnd = 1) := by
  refine ⟨⟨rfl, rfl, rfl⟩, ⟨rfl, rfl, rfl⟩, ⟨rfl, rfl, rfl⟩, ?_⟩
  simp [timemory_scoped_record.lifetime, timemory_scoped_record.ctor,
    timemory_scoped_record.ctor_types, timemory_scoped_record.ctor_enum,
    timemory_scoped_record.dtor, library.begin_call, library.timemory_end_record,
    library_call.isBegin, library_call.isEnd, List.countP_cons]

/-! ## Properties of `start`, `stop` and `reset` -/

namespace tim.timing

/-- A magnitude below `2 ^ 53` loses no bit. -/
theorem excessBits_small (a fuel : Nat) (h : a < 2 ^ 53) : excessBits a fuel = 0 := by
  cases fuel with
  | zero => rfl
  | succ n => rw [excessBits, if_pos h]

/-- An integer of magnitude below `2 ^ 53` is converted to `double` exactly. -/
theorem toDouble_exact (x : Int) (h : x.natAbs < 2 ^ 53) : toDouble x = x := by
  simp [toDouble, excessBits_small _ _ h, Nat.mod_one, Int.sign_mul_abs]

/-- A representable `double` is stored unchanged. -/
theorem fromDouble_of_range (d : Int) (h1 : INT64_MIN ≤ d) (h2 : d ≤ INT64_MAX) :
    fromDouble d = d := by
  unfold fromDouble
  rw [if_pos ⟨h1, h2⟩]

/-- An integer of magnitude below `2 ^ 53` survives the round trip through `double`. -/
theorem fromDouble_toDouble_exact (x : Int) (h : x.natAbs < 2 ^ 53) :
    fromDouble (toDouble x) = x := by
  rw [toDouble_exact x h]
  apply fromDouble_of_range
  · unfold INT64_MIN; omega
  · unfold INT64_MAX; omega

/-- What one `operator()` does, spelled out. -/
theorem base.call_eq (k : Kind) (self : base) (c : Clocks) :
    base.call k self c
      = (fromDouble (toDouble (c.now k.clock (c.calls k.clock))),
         { value := fromDouble (toDouble (c.now k.clock (c.calls k.clock))) },
         { now := c.now,
           calls := Function.update c.calls k.clock (c.calls k.clock + 1) }) := rfl

/-- After `n + 1` calls of `stop()` the value is the sample read by the last of them. -/
theorem base.stop_n_value (k : Kind) (n : Nat) (self : base) (c : Clocks) :
    (base.stop_n k (n + 1) self c).1.value
      = fromDouble (toDouble (c.now k.clock (c.calls k.clock + n))) := by
  induction n generalizing self c with
  | zero => rfl
  | succ n ih =>
    rw [base.stop_n, ih]
    simp only [base.stop, base.call_eq, Function.update_same]
    rw [add_assoc, add_comm 1 n]

/-- C7 as stated fails: with clock readings 10 and 20, the value after two calls of
`stop()` is 20 while the value after the first call is 10. -/
theorem stop_idempotent_counterexample :
    (base.stop_n Kind.realtime_clock 1 (base.ctor 0) tickingClocks).1.value = 10 ∧
    (base.stop_n Kind.realtime_clock 2 (base.ctor 0) tickingClocks).1.value = 20 ∧
    (base.stop_n Kind.realtime_clock 2 (base.ctor 0) tickingClocks).1.value
      ≠ (base.stop_n Kind.realtime_clock 1 (base.ctor 0) tickingClocks).1.value := by
  decide

/-- C7, amended: every call of `stop()` reads the clock again and overwrites `value`, so
after `n + 1` calls the value is the sample read by the last call; it equals the value left
by the first call exactly when the last sample equals the first one. -/
theorem stop_overwrites_value (k : Kind) (self : base) (c : Clocks) (n : Nat) :
    (base.stop_n k (n + 1) self c).1.value
      = fromDouble (toDouble (c.now k.clock (c.calls k.clock + n))) ∧
    ((base.stop_n k (n + 1) self c).1.value = (base.stop_n k 1 self c).1.value ↔
      fromDouble (toDouble (c.now k.clock (c.calls k.clock + n)))
        = fromDouble (toDouble (c.now k.clock (c.calls k.clock)))) := by
  refine ⟨base.stop_n_value k n self c, ?_⟩
  rw [base.stop_n_value k n self c, base.stop_n_value k 0 self c, add_zero]

/-- C8: `start()` and `stop()` each call the kind's `record()` once (one more call of the
kind's clock function, the other clocks untouched), store the sample in `value` and return
the stored value, a sample representable in `intmax_t` being stored as it is.  After
`start()` then `stop()` the value is the sample of the second reading, whatever the
component held before; when both readings are below `2 ^ 53` in magnitude the value is the
second reading itself, not the difference of the two. -/
theorem start_stop_store_latest_sample (k : Kind) (self : base) (c : Clocks) :
    ((base.start k self c).1 = (base.start k self c).2.1.value ∧
     (base.start k self c).2.1.value = fromDouble (k.record c).1 ∧
     (base.start k self c).2.2 = (k.record c).2) ∧
    ((base.stop k self c).1 = (base.stop k self c).2.1.value ∧
     (base.stop k self c).2.1.value = fromDouble (k.record c).1 ∧
     (base.stop k self c).2.2 = (k.record c).2) ∧
    ((k.record c).1 = toDouble (c.now k.clock (c.calls k.clock)) ∧
     (k.record c).2.calls k.clock = c.calls k.clock + 1 ∧
     (∀ f, f ≠ k.clock → (k.record c).2.calls f = c.calls f) ∧
     (k.record c).2.now = c.now) ∧
    (INT64_MIN ≤ (k.record c).1 → (k.record c).1 ≤ INT64_MAX →
      (base.start k self c).2.1.value = (k.record c).1 ∧
      (base.stop k self c).2.1.value = (k.record c).1) ∧
    ((base.stop k (base.start k self c).2.1 (base.start k self c).2.2).2.1.value
        = fromDouble (toDouble (c.now k.clock (c.calls k.clock + 1))) ∧
     ∀ other : base,
      (base.stop k (base.start k other c).2.1 (base.start k other c).2.2).2.1.value
        = (base.stop k (base.start k self c).2.1 (base.start k self c).2.2).2.1.value) ∧
    ((c.now k.clock (c.calls k.clock + 1)).natAbs < 2 ^ 53 →
      (base.stop k (base.start k self c).2.1 (base.start k self c).2.2).2.1.value
        = c.now k.clock (c.calls k.clock + 1)) := by
  have hss : (base.stop k (base.start k self c).2.1 (base.start k self c).2.2).2.1.value
      = fromDouble (toDouble (c.now k.clock (c.calls k.clock + 1))) := by
    simp only [base.stop, base.start, base.call_eq, Function.update_same]
  refine ⟨⟨rfl, rfl, rfl⟩, ⟨rfl, rfl, rfl⟩, ⟨rfl, ?_, ?_, rfl⟩, ?_, ⟨hss, ?_⟩, ?_⟩
  · simp [Kind.record, Clocks.read]
  · intro f hf
    simp [Kind.record, Clocks.read, Function.update_noteq hf]
  · intro h1 h2
    exact ⟨fromDouble_of_range _ h1 h2, fromDouble_of_range _ h1 h2⟩
  · intro other
    rw [hss]
    simp only [base.stop, base.start, base.call_eq, Function.update_same]
  · intro h
    rw [hss, fromDouble_toDouble_exact _ h]

/-- Witness of C8 on the realtime clock with readings 10 and 20: the value after `start()`
then `stop()` is 20, neither 10 nor the difference. -/
theorem start_stop_store_latest_sample_witness :
    (INT64_MIN ≤ (Kind.realtime_clock.record tickingClocks).1 ∧
     (Kind.realtime_clock.record tickingClocks).1 ≤ INT64_MAX ∧
     (tickingClocks.now Kind.realtime_clock.clock
        (tickingClocks.calls Kind.realtime_clock.clock + 1)).natAbs < 2 ^ 53) ∧
    (base.start Kind.realtime_clock (base.ctor 99) tickingClocks).2.1.value = 10 ∧
    (base.stop Kind.realtime_clock
      (base.start Kind.realtime_clock (base.ctor 99) tickingClocks).2.1
      (base.start Kind.realtime_clock (base.ctor 99) tickingClocks).2.2).2.1.value = 20 :=
  have h := start_stop_store_latest_sample Kind.realtime_clock (base.ctor 99) tickingClocks
  ⟨⟨by decide, by decide, by decide⟩,
   (h.2.2.2.1 (by decide) (by decide)).1, h.2.2.2.2.2 (by decide)⟩

/-- C9 as stated fails: with clock readings 10 and 20, a second `start()` without a `stop()`
in between replaces the sample 10 captured by the first `start()` by 20. -/
theorem start_twice_counterexample :
    (base.start Kind.realtime_clock (base.ctor 0) tickingClocks).2.1.value = 10 ∧
    (base.start Kind.realtime_clock
      (base.start Kind.realtime_clock (base.ctor 0) tickingClocks).2.1
      (base.start Kind.realtime_clock (base.ctor 0) tickingClocks).2.2).2.1.value = 20 ∧
    (base.start Kind.realtime_clock
      (base.start Kind.realtime_clock (base.ctor 0) tickingClocks).2.1
      (base.start Kind.realtime_clock (base.ctor 0) tickingClocks).2.2).2.1.value
      ≠ (base.start Kind.realtime_clock (base.ctor 0) tickingClocks).2.1.value := by
  decide

/-- C9, amended: a component keeps no record of an open interval; a second `start()`
without a `stop()` in between is carried out like the first, reads the clock again and
replaces the value by the new sample, which it returns. -/
theorem start_twice_overwrites (k : Kind) (self : base) (c : Clocks) :
    (base.start k (base.start k self c).2.1 (base.start k self c).2.2).2.1.value
      = fromDouble (toDouble (c.now k.clock (c.calls k.clock + 1))) ∧
    (base.start k (base.start k self c).2.1 (base.start k self c).2.2).1
      = fromDouble (toDouble (c.now k.clock (c.calls k.clock + 1))) ∧
    (base.start k (base.start k self c).2.1 (base.start k self c).2.2).2.2.calls k.clock
      = c.calls k.clock + 2 := by
  refine ⟨?_, ?_, ?_⟩ <;>
    simp only [base.start, base.call_eq, Function.update_same, Function.update_idem, add_assoc]

/-- C10: `timing::reset` leaves `value = 0` whatever the component held, resetting twice is
resetting once, and a default-constructed component holds `0`. -/
theorem reset_zeroes (obj : base) :
    (reset obj).value = 0 ∧ reset (reset obj) = reset obj ∧ base.default.value = 0 :=
  ⟨rfl, rfl, rfl⟩

end tim.timing

/-! ## Reading `/proc/<pid>/statm`: `get_page_rss` and `get_peak_rss` -/

namespace tim

/-- Leading white space does not change the fields of a text. -/
theorem fieldsAux_skip (buf : List Char) :
    fieldsAux [] buf = fieldsAux [] (buf.dropWhile isspace) := by
  induction buf with
  | nil => rfl
  | cons c t ih =>
    by_cases h : isspace c = true
    · rw [List.dropWhile_cons_of_pos h, ← ih]
      simp [fieldsAux, h]
    · rw [List.dropWhile_cons_of_neg h]

/-- The field being read is completed by the next run of non-space characters. -/
theorem fieldsAux_word (buf cur : List Char) :
    fieldsAux cur buf =
      if (cur ++ buf.takeWhile (fun c => !isspace c)).isEmpty
      then fieldsAux [] (buf.dropWhile (fun c => !isspace c))
      else (cur ++ buf.takeWhile (fun c => !isspace c))
        :: fieldsAux [] (buf.dropWhile (fun c => !isspace c)) := by
  induction buf generalizing cur with
  | nil => cases cur <;> simp [fieldsAux]
  | cons c t ih =>
    by_cases h : isspace c = true
    · cases cur <;> simp [fieldsAux, h]
    · have h' : isspace c = false := by simpa using h
      rw [fieldsAux, if_neg h, ih]
      simp [h', List.append_assoc]

/-- A run taken inside a run for a weaker test is the run itself. -/
theorem takeWhile_takeWhile_of_imp (p q : Char → Bool) (hpq : ∀ c, p c = true → q c = true)
    (l : List Char) : (l.takeWhile q).takeWhile p = l.takeWhile p := by
  induction l with
  | nil => rfl
  | cons c t ih =>
    by_cases hq : q c = true
    · rw [List.takeWhile_cons_of_pos hq]
      by_cases hp : p c = true
      · rw [List.takeWhile_cons_of_pos hp, List.takeWhile_cons_of_pos hp, ih]
      · rw [List.takeWhile_cons_of_neg hp, List.takeWhile_cons_of_neg hp]
    · have hp : ¬ p c = true := fun h => hq (hpq c h)
      rw [List.takeWhile_cons_of_neg hq, List.takeWhile_cons_of_neg hp]; rfl

/-- A digit is not white space. -/
theorem isdigit_not_isspace (c : Char) (h : isdigit c = true) : (!isspace c) = true := by
  simp only [isdigit, Bool.and_eq_true, decide_eq_true_eq] at h
  have e1 : c ≠ ' ' := by rintro rfl; revert h; decide
  have e2 : c ≠ '\t' := by rintro rfl; revert h; decide
  have e3 : c ≠ '\n' := by rintro rfl; revert h; decide
  have e4 : c ≠ '\r' := by rintro rfl; revert h; decide
  have e5 : c.toNat ≠ 11 := by omega
  have e6 : c.toNat ≠ 12 := by omega
  simp [isspace, e1, e2, e3, e4, e5, e6]

/-- A digit is not a sign. -/
theorem takeSign_of_digit (c : Char) (t : List Char) (h : isdigit c = true) :
    takeSign (c :: t) = (false, c :: t) := by
  simp only [isdigit, Bool.and_eq_true, decide_eq_true_eq] at h
  have e1 : c ≠ '-' := by rintro rfl; revert h; decide
  have e2 : c ≠ '+' := by rintro rfl; revert h; decide
  unfold takeSign
  split
  · rename_i heq; simp at heq; exact absurd heq.1 e1
  · rename_i heq; simp at heq; exact absurd heq.1 e2
  · rfl

/-- A character other than `-` and `+` is not a sign. -/
theorem takeSign_of_other (c : Char) (t : List Char) (h1 : c ≠ '-') (h2 : c ≠ '+') :
    takeSign (c :: t) = (false, c :: t) := by
  unfold takeSign
  split
  · rename_i heq; simp at heq; exact absurd heq.1 h1
  · rename_i heq; simp at heq; exact absurd heq.1 h2
  · rfl

/-- The digits in front of a text are the digits in front of its first field. -/
theorem takeWhile_isdigit_takeWhile (l : List Char) :
    (l.takeWhile (fun c => !isspace c)).takeWhile isdigit = l.takeWhile isdigit :=
  takeWhile_takeWhile_of_imp isdigit (fun c => !isspace c) isdigit_not_isspace l

/-- The number conversion sees the same thing in the text and in its first field. -/
theorem parse_ld_takeWhile (b : List Char) :
    parse_ld (b.takeWhile (fun c => !isspace c)) = parse_ld b := by
  cases b with
  | nil => rfl
  | cons c t =>
    by_cases hm : c = '-'
    · subst hm
      rw [List.takeWhile_cons_of_pos (by decide)]
      simp only [parse_ld, takeSign, takeWhile_isdigit_takeWhile]
    · by_cases hp : c = '+'
      · subst hp
        rw [List.takeWhile_cons_of_pos (by decide)]
        simp only [parse_ld, takeSign, takeWhile_isdigit_takeWhile]
      · by_cases hs : isspace c = true
        · have hd : ¬ isdigit c = true := by
            intro h; have := isdigit_not_isspace c h; simp [hs] at this
          rw [List.takeWhile_cons_of_neg (by simp [hs])]
          have r : parse_ld (c :: t) = none := by
            simp only [parse_ld, takeSign_of_other c t hm hp, List.takeWhile_cons_of_neg hd]
            rfl
          rw [r]; rfl
        · rw [List.takeWhile_cons_of_pos (by simpa using hs)]
          simp only [parse_ld, takeSign_of_other c _ hm hp]
          rw [← List.takeWhile_cons_of_pos (p := fun c => !isspace c) (l := t)
            (by simpa using hs), takeWhile_isdigit_takeWhile]

/-- What remains after dropping a run does not start with a character of the run. -/
theorem dropWhile_head_not (p : Char → Bool) (l : List Char) (c : Char) (t : List Char)
    (h : l.dropWhile p = c :: t) : p c = false := by
  induction l with
  | nil => simp at h
  | cons a l ih =>
    by_cases ha : p a = true
    · rw [List.dropWhile_cons_of_pos ha] at h; exact ih h
    · rw [List.dropWhile_cons_of_neg ha] at h
      simp only [List.cons.injEq] at h
      rw [← h.1]; simpa using ha

/-- The first two fields of a text, in terms of the scanning done by `fscanf`. -/
theorem fields_eq (buf : List Char) :
    fields buf =
      if (buf.dropWhile isspace).isEmpty then []
      else (buf.dropWhile isspace).takeWhile (fun c => !isspace c) ::
        (if (((buf.dropWhile isspace).dropWhile (fun c => !isspace c)).dropWhile
              isspace).isEmpty then []
         else (((buf.dropWhile isspace).dropWhile (fun c => !isspace c)).dropWhile
              isspace).takeWhile (fun c => !isspace c) ::
            fieldsAux [] ((((buf.dropWhile isspace).dropWhile (fun c => !isspace c)).dropWhile
              isspace).dropWhile (fun c => !isspace c))) := by
  have word : ∀ l : List Char, fieldsAux [] l =
      if (l.dropWhile isspace).isEmpty then []
      else (l.dropWhile isspace).takeWhile (fun c => !isspace c) ::
        fieldsAux [] ((l.dropWhile isspace).dropWhile (fun c => !isspace c)) := by
    intro l
    rw [fieldsAux_skip l]
    cases hb : l.dropWhile isspace with
    | nil => simp [fieldsAux]
    | cons c t =>
      have hc := dropWhile_head_not isspace l c t hb
      rw [fieldsAux_word]
      simp [hc]
  unfold fields
  rw [word buf]
  split
  · rfl
  · rw [word]

/-- The outcome of `fscanf(fp, "%*s%ld", &rss)` in terms of `parse_ld`. -/
theorem fscanf_skip_ld_eq (buf : List Char) :
    fscanf_skip_ld buf 0 =
      if (buf.dropWhile isspace).isEmpty then (-1, 0)
      else if (((buf.dropWhile isspace).dropWhile (fun c => !isspace c)).dropWhile
              isspace).isEmpty then (-1, 0)
      else match parse_ld (((buf.dropWhile isspace).dropWhile (fun c => !isspace c)).dropWhile
              isspace) with
        | some r => (1, r)
        | none => (0, 0) := by
  unfold fscanf_skip_ld parse_ld
  simp only
  split
  · rfl
  · split
    · rfl
    · split <;> rfl

/-- The second field of a text, converted, in terms of the scanning done by `fscanf`. -/
theorem second_field_parse (buf : List Char) :
    (fields buf)[1]?.bind parse_ld =
      if (buf.dropWhile isspace).isEmpty then none
      else if (((buf.dropWhile isspace).dropWhile (fun c => !isspace c)).dropWhile
              isspace).isEmpty then none
      else parse_ld (((buf.dropWhile isspace).dropWhile (fun c => !isspace c)).dropWhile
              isspace) := by
  rw [fields_eq]
  split
  · rfl
  · split
    · rfl
    · simp [parse_ld_takeWhile]

/-- On Linux, `get_page_rss` in terms of the second field of `statm`. -/
theorem get_page_rss_linux (m : Macros) (u : Units) (os : OS) (buf : List Char)
    (hU : m.UNIX = true) (hM : m.MACOS = false) (hs : os.statm = some buf) :
    get_page_rss m u os =
      match (fields buf)[1]?.bind parse_ld with
      | some r => wrap64 (r * u.get_page_size)
      | none => 0 := by
  have h1 : get_page_rss m u os =
      if (fscanf_skip_ld buf 0).1 == 1
      then wrap64 ((fscanf_skip_ld buf 0).2 * u.get_page_size) else 0 := by
    unfold get_page_rss
    rw [hU, hM, hs]
    rfl
  rw [h1, fscanf_skip_ld_eq, second_field_parse]
  by_cases c0 : (buf.dropWhile isspace).isEmpty = true
  · rw [if_pos c0, if_pos c0]; rfl
  · rw [if_neg c0, if_neg c0]
    by_cases c1 : (((buf.dropWhile isspace).dropWhile (fun c => !isspace c)).dropWhile
        isspace).isEmpty = true
    · rw [if_pos c1, if_pos c1]; rfl
    · rw [if_neg c1, if_neg c1]
      cases parse_ld _ <;> rfl

end tim

namespace tim

/-- Reducing the left factor first does not change the reduced product. -/
theorem wrap64_mul_left (a b : Int) : wrap64 (wrap64 a * b) = wrap64 (a * b) := by
  have h : wrap64 a = a - 2 ^ 64 * ((a + 2 ^ 63) / 2 ^ 64) := by
    unfold wrap64; omega
  rw [h]
  unfold wrap64
  have e : (a - 2 ^ 64 * ((a + 2 ^ 63) / 2 ^ 64)) * b + 2 ^ 63
      = (a * b + 2 ^ 63) + (-(((a + 2 ^ 63) / 2 ^ 64) * b)) * 2 ^ 64 := by ring
  rw [e, Int.add_mul_emod_self]

/-- C11: `get_page_rss` returns the resident set size in bytes, or zero.  On Linux, when
`statm` can be opened and its second white-space separated field converts (as `%ld` does)
to the integer `r`, the result is `r × units::get_page_size()` (the `int64_t` product, the
exact one when representable); when the file cannot be opened, or has no second field, or
that field does not convert, the result is `0`.  On macOS the result is `0` when
`task_info` does not return `KERN_SUCCESS`, and `info.resident_size` otherwise. -/
theorem get_page_rss_resident_size (m : Macros) (u : Units) (os : OS) (hU : m.UNIX = true) :
    (m.MACOS = false →
      (os.statm = none → get_page_rss m u os = 0) ∧
      (∀ buf f r, os.statm = some buf → (fields buf)[1]? = some f → parse_ld f = some r →
        get_page_rss m u os = wrap64 (r * u.get_page_size) ∧
        (INT64_MIN ≤ r * u.get_page_size → r * u.get_page_size ≤ INT64_MAX →
          get_page_rss m u os = r * u.get_page_size)) ∧
      (∀ buf, os.statm = some buf →
        ((fields buf)[1]? = none ∨ ∃ f, (fields buf)[1]? = some f ∧ parse_ld f = none) →
        get_page_rss m u os = 0)) ∧
    (m.MACOS = true →
      (os.task_info_ret ≠ KERN_SUCCESS → get_page_rss m u os = 0) ∧
      (os.task_info_ret = KERN_SUCCESS →
        get_page_rss m u os = wrap64 ((os.resident_size % 2 ^ 64 : Nat) : Int) ∧
        (os.resident_size < 2 ^ 63 → get_page_rss m u os = (os.resident_size : Int)))) := by
  refine ⟨fun hM => ⟨?_, ?_, ?_⟩, fun hM => ⟨?_, ?_⟩⟩
  · intro hs
    unfold get_page_rss
    rw [hU, hM, hs]
    rfl
  · intro buf f r hs hf hr
    have h := get_page_rss_linux m u os buf hU hM hs
    rw [hf] at h
    simp only [Option.some_bind, hr] at h
    refine ⟨h, fun h1 h2 => ?_⟩
    rw [h, wrap64_of_range _ h1 h2]
  · intro buf hs hno
    have h := get_page_rss_linux m u os buf hU hM hs
    rcases hno with hn | ⟨f, hf, hp⟩
    · rw [hn] at h; exact h
    · rw [hf] at h
      simp only [Option.some_bind, hp] at h
      exact h
  · intro hk
    unfold get_page_rss
    rw [hU, hM]
    simp [hk]
  · intro hk
    have h : get_page_rss m u os = wrap64 ((os.resident_size % 2 ^ 64 : Nat) : Int) := by
      unfold get_page_rss
      rw [hU, hM]
      simp [hk]
    refine ⟨h, fun hr => ?_⟩
    rw [h]
    unfold wrap64
    omega

/-- Witness of C11 on a Linux system whose `statm` reads `100 200 30 4 0 600 0`, with pages
of 4096 bytes: the second field is `200` and the result 819200. -/
theorem get_page_rss_resident_size_witness :
    (linuxBuild.UNIX = true ∧ linuxBuild.MACOS = false ∧
     sampleProc.statm = some "100 200 30 4 0 600 0\n".toList ∧
     (fields "100 200 30 4 0 600 0\n".toList)[1]? = some "200".toList ∧
     parse_ld "200".toList = some 200 ∧
     INT64_MIN ≤ 200 * sampleUnits.get_page_size ∧
     200 * sampleUnits.get_page_size ≤ INT64_MAX) ∧
    get_page_rss linuxBuild sampleUnits sampleProc = 819200 :=
  ⟨⟨rfl, rfl, rfl, by decide, by decide, by decide, by decide⟩,
   (((get_page_rss_resident_size linuxBuild sampleUnits sampleProc rfl).1 rfl).2.1
      "100 200 30 4 0 600 0\n".toList "200".toList 200 rfl (by decide) (by decide)).2
      (by decide) (by decide)⟩

/-- C12: after a successful `getrusage`, `get_peak_rss` returns the peak resident set size
in bytes: on macOS `ru_maxrss` unchanged, on every other Unix `ru_maxrss × units::kilobyte`
(the `int64_t` product, the exact one when representable), for every `ru_maxrss` (a
`long`). -/
theorem get_peak_rss_bytes (m : Macros) (u : Units) (os : OS) (hU : m.UNIX = true)
    (_hret : os.getrusage_ret = 0)
    (h1 : INT64_MIN ≤ os.usage.ru_maxrss) (h2 : os.usage.ru_maxrss ≤ INT64_MAX) :
    (m.MACOS = true → get_peak_rss m u os = os.usage.ru_maxrss) ∧
    (m.MACOS = false →
      get_peak_rss m u os = wrap64 (os.usage.ru_maxrss * u.kilobyte) ∧
      (INT64_MIN ≤ os.usage.ru_maxrss * u.kilobyte →
        os.usage.ru_maxrss * u.kilobyte ≤ INT64_MAX →
        get_peak_rss m u os = os.usage.ru_maxrss * u.kilobyte)) := by
  refine ⟨fun hM => ?_, fun hM => ?_⟩
  · unfold get_peak_rss
    rw [hU, hM]
    simp only [if_true, one_mul]
    exact wrap64_of_range _ h1 h2
  · have h : get_peak_rss m u os = wrap64 (os.usage.ru_maxrss * u.kilobyte) := by
      unfold get_peak_rss
      rw [hU, hM]
      simp only [if_true, Bool.false_eq_true, if_false]
      rw [wrap64_mul_left, mul_comm]
    refine ⟨h, fun h3 h4 => ?_⟩
    rw [h, wrap64_of_range _ h3 h4]

/-- Witness of C12 on a Linux build (`ru_maxrss = 5`, kilobyte of 1024 bytes: 5120 bytes)
and on a Mac build (5 bytes). -/
theorem get_peak_rss_bytes_witness :
    (linuxBuild.UNIX = true ∧ sampleProc.getrusage_ret = 0 ∧
     INT64_MIN ≤ sampleProc.usage.ru_maxrss ∧ sampleProc.usage.ru_maxrss ≤ INT64_MAX ∧
     linuxBuild.MACOS = false ∧ macBuild.MACOS = true) ∧
    get_peak_rss linuxBuild sampleUnits sampleProc = 5120 ∧
    get_peak_rss macBuild sampleUnits sampleProc = 5 :=
  ⟨⟨rfl, rfl, by decide, by decide, rfl, rfl⟩,
   ((get_peak_rss_bytes linuxBuild sampleUnits sampleProc rfl rfl (by decide) (by decide)).2
      rfl).2 (by decide) (by decide),
   (get_peak_rss_bytes macBuild sampleUnits sampleProc rfl rfl (by decide) (by decide)).1 rfl⟩

end tim

/-! ## Labels and colours of the markers of `nvtx.hpp` -/

namespace tim.nvtx

/-- With a non-zero colour, `init_marker` returns a marker of that colour carrying the
C string of the message, and leaves the counter alone. -/
theorem init_marker_nonzero (avail : List Nat) (k : Nat) (msg : List Char) (c : Nat)
    (hc : c ≠ 0) :
    ∃ a, init_marker avail k msg c = some (a, k) ∧ a.color = c ∧
      a.message.ascii = c_str msg := by
  have h : (c == 0) = false := by simpa using hc
  simp only [init_marker, h]
  exact ⟨_, rfl, rfl, rfl⟩

/-- With colour zero and a non-empty vector of colours, `init_marker` returns a marker whose
colour is the entry at `counter % size`, and advances the counter modulo `2 ^ 32`. -/
theorem init_marker_zero (avail : List Nat) (k : Nat) (msg : List Char) (hne : avail ≠ []) :
    ∃ a, init_marker avail k msg 0 = some (a, (k + 1) % 2 ^ 32) ∧
      avail[k % avail.length]? = some a.color ∧ a.message.ascii = c_str msg := by
  have hpos : 0 < avail.length := List.length_pos.2 hne
  have hlen : (avail.length == 0) = false := by simpa using hne
  have hget := List.getElem?_eq_getElem (Nat.mod_lt k hpos)
  simp only [init_marker, beq_self_eq_true, if_true, hlen, hget]
  exact ⟨_, rfl, rfl, rfl⟩

/-- C13 as stated fails: the label `ab`, NUL, `cd` is carried as `ab`. -/
theorem init_marker_label_counterexample :
    (init_marker color.available 0 ['a', 'b', Char.ofNat 0, 'c', 'd'] 0).map
        (fun r => r.1.message.ascii) = some ['a', 'b'] ∧
    (init_marker color.available 0 ['a', 'b', Char.ofNat 0, 'c', 'd'] color.red).map
        (fun r => r.1.message.ascii) = some ['a', 'b'] ∧
    ['a', 'b'] ≠ ['a', 'b', Char.ofNat 0, 'c', 'd'] := by
  decide

/-- C13, amended: for every string `msg` and every colour, `init_marker` (build without
NVTX, initial colours) returns a marker whose `message.ascii` is `msg` up to its first NUL
character, which is `msg` itself whenever `msg` contains no NUL, whatever its length and
its other characters. -/
theorem init_marker_label (k : Nat) (msg : List Char) (c : Nat) :
    ∃ r, init_marker color.available k msg c = some r ∧
      r.1.message.ascii = msg.takeWhile (fun x => x != Char.ofNat 0) ∧
      (Char.ofNat 0 ∉ msg → r.1.message.ascii = msg) := by
  have key : ∃ r, init_marker color.available k msg c = some r ∧
      r.1.message.ascii = c_str msg := by
    by_cases hc : c = 0
    · subst hc
      obtain ⟨a, h, _, hm⟩ := init_marker_zero color.available k msg (by decide)
      exact ⟨_, h, hm⟩
    · obtain ⟨a, h, _, hm⟩ := init_marker_nonzero color.available k msg c hc
      exact ⟨_, h, hm⟩
  obtain ⟨r, h, hm⟩ := key
  refine ⟨r, h, hm, fun hn => ?_⟩
  rw [hm, c_str, List.takeWhile_eq_self_iff]
  intro x hx
  have : x ≠ Char.ofNat 0 := fun e => hn (e ▸ hx)
  simpa using this

/-- Witness of C13 (amended) on the label `a b`, which contains no NUL. -/
theorem init_marker_label_witness :
    Char.ofNat 0 ∉ ['a', ' ', 'b'] ∧
    (init_marker color.available 3 ['a', ' ', 'b'] 0).map (fun r => r.1.message.ascii)
      = some ['a', ' ', 'b'] :=
  ⟨by decide,
   (init_marker_label 3 ['a', ' ', 'b'] 0).elim fun _ h => by
     rw [h.1]; exact congrArg some (h.2.2 (by decide))⟩

end tim.nvtx

/-! ## Division of components and the clock of `user_clock` -/

namespace tim.timing

/-- A truncated quotient of representable integers is representable, `INT64_MIN / -1`
apart. -/
theorem tdiv_in_range (a b : Int) (h1 : INT64_MIN ≤ a) (h2 : a ≤ INT64_MAX)
    (hb : ¬ (a = INT64_MIN ∧ b = -1)) :
    INT64_MIN ≤ Int.tdiv a b ∧ Int.tdiv a b ≤ INT64_MAX := by
  unfold INT64_MIN at *
  unfold INT64_MAX at *
  have hq := Int.natAbs_tdiv a b
  have hle : (a.natAbs).div (b.natAbs) ≤ a.natAbs := Nat.div_le_self _ _
  by_cases hb1 : b = 1
  · subst hb1; rw [Int.tdiv_one]; omega
  · by_cases hb0 : b = 0
    · subst hb0; rw [Int.tdiv_zero]; omega
    · by_cases hbm : b = -1
      · subst hbm
        have : a ≠ -(2 ^ 63) := fun h => hb ⟨h, rfl⟩
        have h1' : (a.natAbs).div 1 = a.natAbs := Nat.div_one _
        simp only [Int.natAbs_neg, Int.natAbs_one] at hq
        rw [h1'] at hq
        omega
      · have h2b : 2 ≤ b.natAbs := by omega
        have : (a.natAbs).div (b.natAbs) ≤ a.natAbs / 2 :=
          Nat.div_le_div_left h2b (by omega)
        omega

/-- C14 as stated fails: with a right-hand side of `0`, `operator/=` and both forms of
`timing::divide` are an integer division by zero, which has no result. -/
theorem divide_by_zero_counterexample :
    (base.ctor 5).operator_div_eq_value 0 = none ∧
    divide_value (base.ctor 5) 0 = none ∧
    divide (base.ctor 5) (base.ctor 0) = none := by
  decide

/-- C14, amended: for every component value and every right-hand side (scalar or
component) other than `0`, the pair `INT64_MIN`, `-1` apart, `operator/=` and
`timing::divide` complete and leave the quotient truncated towards zero, which is
representable when the value is. -/
theorem divide_defined (self : base) (rhs : Int) (h0 : rhs ≠ 0)
    (h1 : ¬ (self.value = INT64_MIN ∧ rhs = -1)) :
    self.operator_div_eq_value rhs = some { value := Int.tdiv self.value rhs } ∧
    divide_value self rhs = some { value := Int.tdiv self.value rhs } ∧
    divide self (base.ctor rhs) = some { value := Int.tdiv self.value rhs } ∧
    (INT64_MIN ≤ self.value → self.value ≤ INT64_MAX →
      INT64_MIN ≤ Int.tdiv self.value rhs ∧ Int.tdiv self.value rhs ≤ INT64_MAX) := by
  have h : self.operator_div_eq_value rhs = some { value := Int.tdiv self.value rhs } := by
    unfold base.operator_div_eq_value
    rw [if_neg h0, if_neg h1]
  exact ⟨h, h, h, fun h2 h3 => tdiv_in_range _ _ h2 h3 h1⟩

/-- Witness of C14 (amended): `-7 / 2` leaves `-3`. -/
theorem divide_defined_witness :
    ((2 : Int) ≠ 0 ∧ ¬ ((base.ctor (-7)).value = INT64_MIN ∧ (2 : Int) = -1)) ∧
    (base.ctor (-7)).operator_div_eq_value 2 = some { value := -3 } :=
  ⟨⟨by decide, by decide⟩, (divide_defined (base.ctor (-7)) 2 (by decide) (by decide)).1⟩

/-- C15: `user_clock` is labelled `user` and described as `user time`, yet its `record()`
is the one of `monotonic_clock`: on clocks whose user-time function answers 5 and whose
monotonic function answers 1000, it returns 1000, calls the monotonic function once and
the user-time function not at all. -/
theorem user_clock_reads_monotonic_clock :
    (∀ c : Clocks, Kind.user_clock.record c = Kind.monotonic_clock.record c) ∧
    Kind.user_clock.label = "user" ∧ Kind.user_clock.descript = "user time" ∧
    toDouble (separateClocks.now Clock.get_clock_user_now 0) = 5 ∧
    toDouble (separateClocks.now Clock.get_clock_monotonic_now 0) = 1000 ∧
    (Kind.user_clock.record separateClocks).1 = 1000 ∧
    (Kind.monotonic_clock.record separateClocks).1 = 1000 ∧
    (Kind.user_clock.record separateClocks).2.calls Clock.get_clock_user_now = 0 ∧
    (Kind.user_clock.record separateClocks).2.calls Clock.get_clock_monotonic_now = 1 := by
  refine ⟨fun _ => rfl, ?_, ?_, ?_, ?_, ?_, ?_, ?_, ?_⟩ <;> decide

end tim.timing

/-! ## Colours of the markers -/

namespace tim.nvtx

/-- Successive calls on one thread, the counter holding `k0` modulo `2 ^ 32` at the start:
every call returns, a zero-colour call gets the colour at the number of zero-colour calls
so far modulo 8, any other call gets its own colour. -/
theorem init_markers_colors (calls : List (List Char × Nat)) (k0 : Nat) :
    ∃ res, init_markers color.available (k0 % 2 ^ 32) calls
        = some (res, (k0 + calls.countP (fun call => call.2 == 0)) % 2 ^ 32) ∧
      res.length = calls.length ∧
      ∀ i a call, res[i]? = some a → calls[i]? = some call →
        some a.color =
          if call.2 = 0
          then color.available[(k0 + (calls.take i).countP (fun call => call.2 == 0)) % 8]?
          else some call.2 := by
  induction calls generalizing k0 with
  | nil => exact ⟨[], rfl, rfl, fun i a call h => by simp at h⟩
  | cons c t ih =>
    by_cases hc : c.2 = 0
    · obtain ⟨a0, h0, hcol, _⟩ := init_marker_zero color.available (k0 % 2 ^ 32) c.1 (by decide)
      rw [← hc] at h0
      have hk : (k0 % 2 ^ 32 + 1) % 2 ^ 32 = (k0 + 1) % 2 ^ 32 := by omega
      rw [hk] at h0
      obtain ⟨res, hres, hlen, hidx⟩ := ih (k0 + 1)
      refine ⟨a0 :: res, ?_, by simp [hlen], ?_⟩
      · simp only [init_markers, h0, hres]
        rw [List.countP_cons]
        simp only [hc, beq_self_eq_true, if_true]
        congr 3
        omega
      · intro i a call ha hcall
        cases i with
        | zero =>
          simp only [List.getElem?_cons_zero, Option.some.injEq] at ha hcall
          subst ha hcall
          rw [if_pos hc, ← hcol]
          have : color.available.length = 8 := rfl
          rw [this]
          simp only [List.take_zero, List.countP_nil, Nat.add_zero]
          congr 1
          omega
        | succ j =>
          simp only [List.getElem?_cons_succ] at ha hcall
          have := hidx j a call ha hcall
          rw [this]
          rw [List.take_succ_cons, List.countP_cons]
          simp only [hc, beq_self_eq_true, if_true]
          have e : k0 + 1 + List.countP (fun call => call.2 == 0) (List.take j t)
              = k0 + (List.countP (fun call => call.2 == 0) (List.take j t) + 1) := by omega
          rw [e]
    · obtain ⟨a0, h0, hcol, _⟩ := init_marker_nonzero color.available (k0 % 2 ^ 32) c.1 c.2 hc
      obtain ⟨res, hres, hlen, hidx⟩ := ih k0
      refine ⟨a0 :: res, ?_, by simp [hlen], ?_⟩
      · simp only [init_markers, h0, hres]
        have hb : (c.2 == 0) = false := by simpa using hc
        rw [List.countP_cons]
        simp only [hb, Bool.false_eq_true, if_false, Nat.add_zero]
      · intro i a call ha hcall
        cases i with
        | zero =>
          simp only [List.getElem?_cons_zero, Option.some.injEq] at ha hcall
          subst ha hcall
          rw [if_neg hc, hcol]
        | succ j =>
          simp only [List.getElem?_cons_succ] at ha hcall
          have := hidx j a call ha hcall
          rw [this]
          have hb : (c.2 == 0) = false := by simpa using hc
          rw [List.take_succ_cons, List.countP_cons]
          simp only [hb, Bool.false_eq_true, if_false, Nat.add_zero]

/-- C17: colour selection in `init_marker`.  A non-zero colour is the marker's colour and
the counter is not advanced.  With colour zero and a non-empty `available()` the lookup
`.at(counter % size)` is in range, whatever the counter, and the counter advances modulo
`2 ^ 32`.  On a thread (counter initially `0`, the eight initial colours) every call
returns, and the zero-colour call preceded by `k` zero-colour calls gets
`available()[k mod 8]`, also once `k` has passed `2 ^ 32`. -/
theorem init_marker_color_selection :
    (∀ (avail : List Nat) (k : Nat) (msg : List Char) (c : Nat), c ≠ 0 →
      ∃ a, init_marker avail k msg c = some (a, k) ∧ a.color = c) ∧
    (∀ (avail : List Nat) (k : Nat) (msg : List Char), avail ≠ [] →
      k % avail.length < avail.length ∧
      ∃ a, init_marker avail k msg 0 = some (a, (k + 1) % 2 ^ 32) ∧
        avail[k % avail.length]? = some a.color) ∧
    color.available.length = 8 ∧
    (∀ calls : List (List Char × Nat),
      ∃ res, init_markers color.available 0 calls
          = some (res, calls.countP (fun call => call.2 == 0) % 2 ^ 32) ∧
        res.length = calls.length ∧
        ∀ i a call, res[i]? = some a → calls[i]? = some call →
          some a.color =
            if call.2 = 0
            then color.available[(calls.take i).countP (fun call => call.2 == 0) % 8]?
            else some call.2) ∧
    (∀ (k : Nat) (msg : List Char),
      ∃ a, init_marker color.available (k % 2 ^ 32) msg 0 = some (a, (k + 1) % 2 ^ 32) ∧
        color.available[k % 8]? = some a.color) := by
  refine ⟨?_, ?_, rfl, ?_, ?_⟩
  · intro avail k msg c hc
    obtain ⟨a, h, hcol, _⟩ := init_marker_nonzero avail k msg c hc
    exact ⟨a, h, hcol⟩
  · intro avail k msg hne
    obtain ⟨a, h, hcol, _⟩ := init_marker_zero avail k msg hne
    exact ⟨Nat.mod_lt k (List.length_pos.2 hne), a, h, hcol⟩
  · intro calls
    have h := init_markers_colors calls 0
    simp only [Nat.zero_mod, Nat.zero_add] at h
    exact h
  · intro k msg
    obtain ⟨a, h, hcol, _⟩ := init_marker_zero color.available (k % 2 ^ 32) msg (by decide)
    refine ⟨a, ?_, ?_⟩
    · rw [h]; congr 2; omega
    · rw [← hcol]
      have : color.available.length = 8 := rfl
      rw [this]
      congr 1
      omega

/-- Witness of C17: the colour `red` is kept and the counter 7 left alone; with colour
zero and the counter at `2 ^ 32 - 1` the lookup is at index 7 and the counter wraps to
`0`. -/
theorem init_marker_color_selection_witness :
    (color.red ≠ 0 ∧ color.available ≠ []) ∧
    (∃ a, init_marker color.available 7 [] color.red = some (a, 7) ∧ a.color = color.red) ∧
    (∃ a, init_marker color.available (2 ^ 32 - 1) [] 0 = some (a, (2 ^ 32 - 1 + 1) % 2 ^ 32) ∧
      color.available[(2 ^ 32 - 1) % color.available.length]? = some a.color) :=
  ⟨⟨by decide, by decide⟩,
   init_marker_color_selection.1 color.available 7 [] color.red (by decide),
   (init_marker_color_selection.2.1 color.available (2 ^ 32 - 1) [] (by decide)).2⟩

/-- C18: the eight colours of `available()` are not pairwise distinct: `pink` has the value
of `cyan`, so the sixth and the seventh automatically coloured markers of a thread (counter
5 and 6) have the same colour `0xff00ffff`. -/
theorem available_colors_repeat :
    color.cyan = color.pink ∧ ¬ color.available.Nodup ∧
    color.available[5]? = some color.cyan ∧ color.available[6]? = some color.pink ∧
    (init_marker color.available 5 [] 0).map (fun r => r.1.color) = some 0xff00ffff ∧
    (init_marker color.available 6 [] 0).map (fun r => r.1.color) = some 0xff00ffff ∧
    (init_markers color.available 0 (List.replicate 8 ([], 0))).map
        (fun r => r.1.map (fun a => a.color))
      = some [0xffff0000, 0xff0000ff, 0xff00ff00, 0xffffff00, 0xffff00ff, 0xff00ffff,
              0xff00ffff, 0xff99ff99] := by
  decide

end tim.nvtx

/-! ## Reading `/proc/<pid>/io`: `get_bytes_read` and `get_bytes_written` -/

namespace tim

/-- The substring test of the source is the infix relation. -/
theorem found_iff_infix (key l : List Char) : found key l = true ↔ key <:+: l := by
  induction l with
  | nil => simp [found, List.isEmpty_iff]
  | cons c t ih =>
    rw [found, Bool.or_eq_true, ih, List.infix_cons_iff, List.isPrefixOf_iff_prefix]

/-- Reading a word that is preceded by white space and followed by a blank. -/
theorem extract_string_word (pre w rest old : List Char) (c : Char)
    (hpre : ∀ x ∈ pre, isspace x = true) (hw : ∀ x ∈ w, (!isspace x) = true) (hne : w ≠ [])
    (hc : isspace c = true) :
    ifstream.extract_string { buf := pre ++ (w ++ c :: rest), failbit := false, eofbit := false }
      old = ({ buf := c :: rest, failbit := false, eofbit := false }, w) := by
  obtain ⟨a, w', rfl⟩ := List.exists_cons_of_ne_nil hne
  have ha : ¬ isspace a = true := by
    have := hw a (List.mem_cons_self _ _); simpa using this
  have hc' : ¬ (!isspace c) = true := by simp [hc]
  have hd : (pre ++ ((a :: w') ++ c :: rest)).dropWhile isspace = a :: (w' ++ c :: rest) := by
    rw [List.dropWhile_append_of_pos hpre, List.cons_append, List.dropWhile_cons_of_neg ha]
  have ht : (a :: (w' ++ c :: rest)).takeWhile (fun x => !isspace x) = a :: w' := by
    rw [← List.cons_append, List.takeWhile_append_of_pos hw,
      List.takeWhile_cons_of_neg (p := fun x => !isspace x) hc', List.append_nil]
  have hr : (a :: (w' ++ c :: rest)).dropWhile (fun x => !isspace x) = c :: rest := by
    rw [← List.cons_append, List.dropWhile_append_of_pos hw,
      List.dropWhile_cons_of_neg (p := fun x => !isspace x) hc']
  unfold ifstream.extract_string ifstream.sentry
  simp only [Bool.or_self, Bool.false_eq_true, if_false, hd, List.isEmpty_cons, ht, hr]

/-- Reading a number that is preceded by white space and followed by a newline. -/
theorem extract_int64_digits (pre ds rest : List Char) (old : Int)
    (hpre : ∀ x ∈ pre, isspace x = true) (hds : ∀ x ∈ ds, isdigit x = true) (hne : ds ≠ [])
    (hv : digitsValue ds < 2 ^ 63) :
    ifstream.extract_int64
      { buf := pre ++ (ds ++ '\n' :: rest), failbit := false, eofbit := false } old
      = ({ buf := '\n' :: rest, failbit := false, eofbit := false }, (digitsValue ds : Int)) := by
  obtain ⟨a, ds', rfl⟩ := List.exists_cons_of_ne_nil hne
  have had : isdigit a = true := hds a (List.mem_cons_self _ _)
  have ha : ¬ isspace a = true := by
    have := isdigit_not_isspace a had; simpa using this
  have hn : ¬ isdigit '\n' = true := by decide
  have hd : (pre ++ ((a :: ds') ++ '\n' :: rest)).dropWhile isspace
      = a :: (ds' ++ '\n' :: rest) := by
    rw [List.dropWhile_append_of_pos hpre, List.cons_append, List.dropWhile_cons_of_neg ha]
  have hs : takeSign (a :: (ds' ++ '\n' :: rest)) = (false, a :: (ds' ++ '\n' :: rest)) :=
    takeSign_of_digit a _ had
  have ht : (a :: (ds' ++ '\n' :: rest)).takeWhile isdigit = a :: ds' := by
    rw [← List.cons_append, List.takeWhile_append_of_pos hds,
      List.takeWhile_cons_of_neg hn, List.append_nil]
  have hr : (a :: (ds' ++ '\n' :: rest)).dropWhile isdigit = '\n' :: rest := by
    rw [← List.cons_append, List.dropWhile_append_of_pos hds, List.dropWhile_cons_of_neg hn]
  have hrange : decide ((digitsValue (a :: ds') : Int) < INT64_MIN ∨
      INT64_MAX < (digitsValue (a :: ds') : Int)) = false := by
    rw [decide_eq_false_iff_not]
    unfold INT64_MIN INT64_MAX; omega
  have hclamp : clamp64 (digitsValue (a :: ds') : Int) = (digitsValue (a :: ds') : Int) := by
    unfold clamp64 INT64_MIN INT64_MAX
    rw [if_neg (by omega), if_neg (by omega)]
  unfold ifstream.extract_int64 ifstream.sentry
  simp only [Bool.or_self, Bool.false_eq_true, if_false, hd, List.isEmpty_cons, hs, ht, hr,
    hrange, hclamp]

/-- What the well-formedness of a line says. -/
theorem io_entry.wf_iff (e : io_entry) :
    e.wf = true ↔
      e.label ≠ [] ∧ (∀ x ∈ e.label, (!isspace x) = true) ∧ e.digits ≠ [] ∧
      (∀ x ∈ e.digits, isdigit x = true) ∧ digitsValue e.digits < 2 ^ 63 := by
  simp [io_entry.wf, List.isEmpty_iff, and_assoc]

/-- The text of a file that begins with a line. -/
theorem render_io_cons (e : io_entry) (es : List io_entry) :
    render_io (e :: es) = e.label ++ ' ' :: (e.digits ++ '\n' :: render_io es) := by
  simp [render_io, io_entry.render]

/-- The loop of `get_bytes_read` and `get_bytes_written` on a file of well-formed lines:
it returns the value of the first of the first `fuel` lines whose label contains `key`. -/
theorem io_loop_render (key : List Char) (es : List io_entry) :
    ∀ (fuel : Nat) (pre label : List Char) (value : Int),
      (∀ x ∈ pre, isspace x = true) → (∀ e ∈ es, e.wf = true) → found key label = false →
      io_loop key fuel { buf := pre ++ render_io es, failbit := false, eofbit := false }
          label value
        = ((es.take fuel).find? (fun e => found key e.label)).map io_entry.value := by
  induction es with
  | nil =>
    intro fuel pre label value hpre _ hlabel
    cases fuel with
    | zero => rfl
    | succ f =>
      have hd : (pre ++ render_io []).dropWhile isspace = [] := by
        rw [List.dropWhile_eq_nil_iff]
        intro x hx
        simp only [render_io, List.append_nil] at hx
        exact hpre x hx
      unfold io_loop
      simp only [ifstream.extract_string, ifstream.extract_int64, ifstream.sentry,
        Bool.or_self, Bool.false_eq_true, if_false, hd, List.isEmpty_nil, if_true, hlabel,
        Bool.or_true, Bool.true_or]
      cases f <;> simp [io_loop]
  | cons e es ih =>
    intro fuel pre label value hpre hwf hlabel
    cases fuel with
    | zero => rfl
    | succ f =>
      obtain ⟨hl, hls, hd, hds, hv⟩ := (io_entry.wf_iff e).1 (hwf e (List.mem_cons_self _ _))
      have hwf' : ∀ x ∈ es, x.wf = true := fun x hx => hwf x (List.mem_cons_of_mem _ hx)
      have h1 := extract_string_word pre e.label (e.digits ++ '\n' :: render_io es) label ' '
        hpre hls hl (by decide)
      have h2 := extract_int64_digits [' '] e.digits (render_io es) value
        (by decide) hds hd hv
      rw [io_loop]
      simp only [Bool.false_eq_true, if_false, render_io_cons, h1]
      rw [show (' ' :: (e.digits ++ '\n' :: render_io es))
        = [' '] ++ (e.digits ++ '\n' :: render_io es) from rfl, h2]
      simp only [List.take_succ_cons]
      by_cases hk : found key e.label = true
      · rw [if_pos hk, List.find?_cons]
        simp only [hk]
        rfl
      · have hk' : found key e.label = false := by simpa using hk
        rw [if_neg hk, List.find?_cons]
        simp only [hk']
        exact ih f ['\n'] e.label _ (by decide) hwf' hk'

/-- On Linux, what `get_bytes_read` and `get_bytes_written` do with a file of well-formed
lines, `key` being the text searched in the labels. -/
theorem io_loop_paired_value (key : List Char) (hkey : key ≠ []) (es : List io_entry)
    (hwf : ∀ e ∈ es, e.wf = true) :
    (match io_loop key max_lines (ifstream.open (some (render_io es))) [] 0 with
      | some v => v
      | none => 0) = paired_value key es := by
  have hp : (fun e : io_entry => found key e.label) = (fun e => decide (key <:+: e.label)) := by
    funext e
    rw [Bool.eq_iff_iff, found_iff_infix, decide_eq_true_iff]
  have h0 : found key [] = false := by
    cases key with
    | nil => exact absurd rfl hkey
    | cons a t => rfl
  have h := io_loop_render key es max_lines [] [] 0 (by simp) hwf h0
  rw [List.nil_append] at h
  unfold paired_value
  rw [ifstream.open, h, hp]
  cases List.find? _ _ <;> rfl

/-- The paired value, computed with the substring test of the source. -/
theorem paired_value_eq_found (key : List Char) (es : List io_entry) :
    paired_value key es =
      match (es.take max_lines).find? (fun e => found key e.label) with
      | some e => e.value
      | none => 0 := by
  have hp : (fun e : io_entry => found key e.label) = (fun e => decide (key <:+: e.label)) := by
    funext e
    rw [Bool.eq_iff_iff, found_iff_infix, decide_eq_true_iff]
  rw [hp]; rfl

/-- C16: on Linux, `get_bytes_read` (resp. `get_bytes_written`) returns `0` when
`/proc/<pid>/io` cannot be opened; on a file of well-formed label/value lines it reads at
most 7 pairs and returns the value paired with the first label containing `read_bytes`
(resp. `write_bytes`), or `0` when none of these labels contains it; for the standard
layout `get_bytes_read` returns the `read_bytes` value and `get_bytes_written` the
`write_bytes` value, not the `cancelled_write_bytes` one. -/
theorem get_bytes_linux (m : Macros) (os : OS) (hM : m.MACOS = false) (hL : m.LINUX = true) :
    (os.io = none → get_bytes_read m os = 0 ∧ get_bytes_written m os = 0) ∧
    (∀ es : List io_entry, (∀ e ∈ es, e.wf = true) → os.io = some (render_io es) →
      get_bytes_read m os = paired_value "read_bytes".toList es ∧
      get_bytes_written m os = paired_value "write_bytes".toList es) ∧
    (∀ d1 d2 d3 d4 d5 d6 d7 : List Char,
      (∀ e ∈ standard_io d1 d2 d3 d4 d5 d6 d7, e.wf = true) →
      os.io = some (render_io (standard_io d1 d2 d3 d4 d5 d6 d7)) →
      get_bytes_read m os = (digitsValue d5 : Int) ∧
      get_bytes_written m os = (digitsValue d6 : Int)) := by
  have hgen : ∀ es : List io_entry, (∀ e ∈ es, e.wf = true) → os.io = some (render_io es) →
      get_bytes_read m os = paired_value "read_bytes".toList es ∧
      get_bytes_written m os = paired_value "write_bytes".toList es := by
    intro es hwf hio
    constructor
    · rw [← io_loop_paired_value "read_bytes".toList (by decide) es hwf]
      unfold get_bytes_read
      rw [hM, hL, hio]
      rfl
    · rw [← io_loop_paired_value "write_bytes".toList (by decide) es hwf]
      unfold get_bytes_written
      rw [hM, hL, hio]
      rfl
  refine ⟨?_, hgen, ?_⟩
  · intro hio
    constructor
    · unfold get_bytes_read; rw [hM, hL, hio]; rfl
    · unfold get_bytes_written; rw [hM, hL, hio]; rfl
  · intro d1 d2 d3 d4 d5 d6 d7 hwf hio
    obtain ⟨hr, hw⟩ := hgen _ hwf hio
    rw [hr, hw]
    rw [paired_value_eq_found, paired_value_eq_found]
    exact ⟨rfl, rfl⟩

/-- Witness of C16: with the standard seven lines holding 1, 2, 3, 4, 55, 66, 77 the
results are 55 and 66; with `read_bytes` only on an eighth line the result is 0. -/
theorem get_bytes_linux_witness :
    (linuxBuild.MACOS = false ∧ linuxBuild.LINUX = true ∧
     (∀ e ∈ standard_io "1".toList "2".toList "3".toList "4".toList "55".toList "66".toList
        "77".toList, e.wf = true) ∧
     (∀ e ∈ lateReadBytes, e.wf = true) ∧
     lateProc.io = some (render_io lateReadBytes)) ∧
    get_bytes_read linuxBuild sampleProc = 55 ∧
    get_bytes_written linuxBuild sampleProc = 66 ∧
    get_bytes_read linuxBuild lateProc = paired_value "read_bytes".toList lateReadBytes ∧
    paired_value "read_bytes".toList lateReadBytes = 0 :=
  have h := get_bytes_linux linuxBuild sampleProc rfl rfl
  have h8 := get_bytes_linux linuxBuild lateProc rfl rfl
  ⟨⟨rfl, rfl, by decide, by decide, rfl⟩,
   (h.2.2 _ _ _ _ _ _ _ (by decide) rfl).1, (h.2.2 _ _ _ _ _ _ _ (by decide) rfl).2,
   (h8.2.1 lateReadBytes (by decide) rfl).1,
   (paired_value_eq_found _ _).trans rfl⟩

end tim
